import Mathlib

/-!
Verification of the INIS QA automation correction pipeline.

The definitions below are a shallow embedding of the Python sources:
  - auto_correction_processor.py (file-writing corrector),
  - auto_correction_applier.py   (live-repository applier),
  - o4-INISQAChecker.py          (deterministic QA checks),
  - qa_email_sender.py           (report aggregator).

JSON dictionaries become structures; a key whose absence is observable
(through dict.get defaults or "key in dict" tests) becomes an Option field.
Mutating Python functions become pure functions returning the new value.
-/

/-- One entry of a creator's `affiliations` list (a JSON dict `{name: ...}`). -/
structure Affiliation where
  name : String
deriving DecidableEq

/-- A creator's `person_or_org` dict; absent keys read as `""` via dict.get. -/
structure PersonOrOrg where
  type : String
  name : String
deriving DecidableEq

/-- One entry of `metadata.creators`. A missing `person_or_org` key reads as an
empty dict, which behaves like `⟨"", ""⟩`; a missing `affiliations` key reads
as `[]`. -/
structure Creator where
  person_or_org : PersonOrOrg
  affiliations : List Affiliation
deriving DecidableEq

/-- One entry of `metadata.related_identifiers`; `ri.get("identifier", "")`
reads a missing key as `""`. -/
structure RelatedIdentifier where
  identifier : String
deriving DecidableEq

/-- The `metadata` section of a record.  Fields read with a `[]` default and
mutated only through their elements are plain lists; fields whose key
presence is tested (`"related_identifiers" not in metadata`) or that are
overwritten wholesale are Options. -/
structure Metadata where
  title : Option String
  description : Option String
  publication_date : Option String
  creators : List Creator
  related_identifiers : Option (List RelatedIdentifier)
deriving DecidableEq

/-- The `custom_fields` section of a record. -/
structure CustomFields where
  qa_checked : Option Bool
  descriptors_cai_text : Option (List String)
  lead_record_id : Option String
deriving DecidableEq

/-- A repository record.  `metadata` and `custom_fields` are Options because
the Python code distinguishes a missing section (dict.get returns a fresh
dict whose mutation is lost) from a present one. -/
structure Record where
  metadata : Option Metadata
  custom_fields : Option CustomFields
deriving DecidableEq

/-- The empty `metadata` dict created by `record["metadata"] = {}`. -/
def emptyMetadata : Metadata := ⟨none, none, none, [], none⟩

/-- One affiliation-correction pair from a QA report. Missing keys read `""`. -/
structure AffCorrection where
  old_affiliation : String
  recommended_affiliation : String
deriving DecidableEq

/-- One organizational-author correction pair from a QA report. -/
structure OrgCorrection where
  old_organizational_author : String
  recommended_organizational_author : String
deriving DecidableEq

/-- `corrections.delete_descriptor` may be a single string or a list. -/
inductive StrOrList where
  | str (s : String)
  | list (l : List String)
deriving DecidableEq

/-- The normalization `if isinstance(deletions, str): deletions = [deletions]`. -/
def StrOrList.toList : StrOrList → List String
  | .str s => [s]
  | .list l => l

/-- `corrections.related_identifiers` may be a single object or a list. -/
inductive RelIdsSpec where
  | single (r : RelatedIdentifier)
  | list (l : List RelatedIdentifier)
deriving DecidableEq

/-- The normalization `if not isinstance(identifiers, list): identifiers = [identifiers]`. -/
def RelIdsSpec.toList : RelIdsSpec → List RelatedIdentifier
  | .single r => [r]
  | .list l => l

/-- The `corrections` mapping of a QA report, restricted to its recognized keys. -/
structure CorrectionsMap where
  title : Option String
  abstract : Option String
  delete_descriptor : Option StrOrList
  publication_date : Option String
  related_identifiers : Option RelIdsSpec
deriving DecidableEq

/-- A QA report as read by the corrector scripts.  Boolean flags read through
`qa_data.get(...)` treat a missing key as falsy. -/
structure QAReport where
  record_id : Option String
  title_corrected : Bool
  abstract_corrected : Bool
  descriptor_corrected : Bool
  date_corrected : Bool
  affiliation_correction_recommended : Bool
  corrections : CorrectionsMap
  affiliation_corrections : List AffCorrection
  organizational_author_corrections : List OrgCorrection
deriving DecidableEq

/-! ### Field projections used throughout the statements -/

/-- The record's title, `none` when `metadata` or `title` is absent. -/
def titleOf (r : Record) : Option String := r.metadata.bind (·.title)

/-- The record's description (abstract). -/
def descriptionOf (r : Record) : Option String := r.metadata.bind (·.description)

/-- The record's publication date. -/
def pubDateOf (r : Record) : Option String := r.metadata.bind (·.publication_date)

/-- The record's creators, `[]` when `metadata` is absent. -/
def creatorsOf (r : Record) : List Creator := (r.metadata.map (·.creators)).getD []

/-- The record's related-identifier list, `none` when absent. -/
def relIdsOf (r : Record) : Option (List RelatedIdentifier) :=
  r.metadata.bind (·.related_identifiers)

/-- The record's `iaea:descriptors_cai_text` list, `none` when absent. -/
def descriptorsOf (r : Record) : Option (List String) :=
  r.custom_fields.bind (·.descriptors_cai_text)

/-- The record's `iaea:qa_checked` value, `none` when absent. -/
def qaCheckedOf (r : Record) : Option Bool := r.custom_fields.bind (·.qa_checked)

/-- Python `str.lower()`, modelled as character-wise ASCII case folding (the
library `String.toLower` is the same map but is not kernel-reducible). -/
def strLower (s : String) : String := ⟨s.data.map Char.toLower⟩

/-! ## auto_correction_processor.py — the file-writing corrector -/

namespace AutoCorrectionProcessor

/-- `apply_title_correction` (auto_correction_processor.py:77-91): create
`metadata` if absent, then overwrite `metadata["title"]`.  Always returns
True in the source; here the returned record is the whole result. -/
def apply_title_correction (record : Record) (correction : String) : Record :=
  let m := record.metadata.getD emptyMetadata
  { record with metadata := some { m with title := some correction } }

/-- `apply_abstract_correction` (auto_correction_processor.py:93-108):
overwrite `metadata["description"]`. -/
def apply_abstract_correction (record : Record) (correction : String) : Record :=
  let m := record.metadata.getD emptyMetadata
  { record with metadata := some { m with description := some correction } }

/-- `apply_date_correction` (auto_correction_processor.py:167-181):
overwrite `metadata["publication_date"]`. -/
def apply_date_correction (record : Record) (correction : String) : Record :=
  let m := record.metadata.getD emptyMetadata
  { record with metadata := some { m with publication_date := some correction } }

/-- One iteration of the outer `for correction in corrections` loop of
`apply_affiliation_corrections` (auto_correction_processor.py:118-132),
acting on the creators list: a pair with an empty old or new name is
skipped; otherwise every affiliation entry named `old_affiliation` is
overwritten in place with `recommended_affiliation`. -/
def affStepCreators (creators : List Creator) (c : AffCorrection) : List Creator :=
  if c.old_affiliation = "" ∨ c.recommended_affiliation = "" then creators
  else creators.map (fun cr =>
    { cr with affiliations := cr.affiliations.map (fun a =>
        if a.name = c.old_affiliation then { a with name := c.recommended_affiliation }
        else a) })

/-- The number of `corrections_applied` increments the same loop iteration
performs: one per matching affiliation entry. -/
def affStepCount (creators : List Creator) (c : AffCorrection) : Nat :=
  if c.old_affiliation = "" ∨ c.recommended_affiliation = "" then 0
  else (creators.map (fun cr =>
    (cr.affiliations.filter (fun a => a.name = c.old_affiliation)).length)).sum

/-- The full `for correction in corrections` loop, threading the mutated
creators list and the `corrections_applied` counter. -/
def applyAffPairsFold (creators : List Creator) (cs : List AffCorrection) :
    List Creator × Nat :=
  cs.foldl (fun acc c => (affStepCreators acc.1 c, acc.2 + affStepCount acc.1 c))
    (creators, 0)

/-- `apply_affiliation_corrections` (auto_correction_processor.py:110-138),
returning the mutated record together with the internal
`corrections_applied` counter.  When `metadata` is absent the loop runs
over a fresh empty dict and the record is untouched. -/
def apply_affiliation_corrections_core (record : Record) (cs : List AffCorrection) :
    Record × Nat :=
  match record.metadata with
  | none => (record, 0)
  | some m =>
    let res := applyAffPairsFold m.creators cs
    ({ record with metadata := some { m with creators := res.1 } }, res.2)

/-- `apply_affiliation_corrections`: the source returns `corrections_applied > 0`. -/
def apply_affiliation_corrections (record : Record) (cs : List AffCorrection) :
    Record × Bool :=
  let res := apply_affiliation_corrections_core record cs
  (res.1, decide (0 < res.2))

/-- Write back the (slice-assigned) descriptor list.  Only reachable when
`custom_fields` is present (otherwise the function returned early). -/
def setDescriptors (record : Record) (l : List String) : Record :=
  match record.custom_fields with
  | none => record
  | some cf => { record with custom_fields := some { cf with descriptors_cai_text := some l } }

/-- `apply_descriptor_deletions` (auto_correction_processor.py:140-165):
returns False untouched when the descriptor list is missing or empty;
otherwise keeps the entries whose lowercase form is not in the lowercased
deletion list (in-place slice assignment) and returns whether the list
shrank. -/
def apply_descriptor_deletions (record : Record) (deletions : List String) :
    Record × Bool :=
  let descriptors := (descriptorsOf record).getD []
  if descriptors.isEmpty then (record, false)
  else
    let deletions_lower := deletions.map strLower
    let remaining := descriptors.filter (fun d => !(deletions_lower.contains (strLower d)))
    (setDescriptors record remaining, decide (remaining.length < descriptors.length))

/-- `add_related_identifier` (auto_correction_processor.py:183-205).  When
`metadata` is absent, `record.get("metadata", {})` yields a fresh dict: the
append is lost but the function still returns True for a non-empty new
identifier.  When present, the `related_identifiers` key is created if
missing, and the object is appended unless its identifier is empty or
already present. -/
def add_related_identifier (record : Record) (identifier_data : RelatedIdentifier) :
    Record × Bool :=
  match record.metadata with
  | none => (record, decide (identifier_data.identifier ≠ ""))
  | some m =>
    let ris := m.related_identifiers.getD []
    let existing := ris.map (·.identifier)
    if identifier_data.identifier ≠ "" ∧ identifier_data.identifier ∉ existing then
      ({ record with metadata := some { m with related_identifiers := some (ris ++ [identifier_data]) } },
       true)
    else
      ({ record with metadata := some { m with related_identifiers := some ris } },
       false)

/-- The title block of `process_qa_report` (auto_correction_processor.py:232-236),
threading (record, corrections_applied). -/
def stepTitle (qa : QAReport) (s : Record × Nat) : Record × Nat :=
  if qa.title_corrected then
    match qa.corrections.title with
    | some t => (apply_title_correction s.1 t, s.2 + 1)
    | none => s
  else s

/-- The abstract block (auto_correction_processor.py:238-242). -/
def stepAbstract (qa : QAReport) (s : Record × Nat) : Record × Nat :=
  if qa.abstract_corrected then
    match qa.corrections.abstract with
    | some t => (apply_abstract_correction s.1 t, s.2 + 1)
    | none => s
  else s

/-- The affiliation block (auto_correction_processor.py:244-249): requires
the `affiliation_correction_recommended` flag and a non-empty list, then
increments by one when the matcher reports at least one match. -/
def stepAffiliation (qa : QAReport) (s : Record × Nat) : Record × Nat :=
  if qa.affiliation_correction_recommended then
    if qa.affiliation_corrections.isEmpty then s
    else
      let res := apply_affiliation_corrections s.1 qa.affiliation_corrections
      (res.1, if res.2 then s.2 + 1 else s.2)
  else s

/-- The descriptor block (auto_correction_processor.py:251-258): requires the
flag and the key; a string value is normalized to a one-element list; an
empty list short-circuits before the matcher runs. -/
def stepDescriptor (qa : QAReport) (s : Record × Nat) : Record × Nat :=
  if qa.descriptor_corrected then
    match qa.corrections.delete_descriptor with
    | none => s
    | some spec =>
      let dels := spec.toList
      if dels.isEmpty then s
      else
        let res := apply_descriptor_deletions s.1 dels
        (res.1, if res.2 then s.2 + 1 else s.2)
  else s

/-- The date block (auto_correction_processor.py:260-264). -/
def stepDate (qa : QAReport) (s : Record × Nat) : Record × Nat :=
  if qa.date_corrected then
    match qa.corrections.publication_date with
    | some t => (apply_date_correction s.1 t, s.2 + 1)
    | none => s
  else s

/-- One iteration of the `for identifier in identifiers` loop
(auto_correction_processor.py:271-273): each appended identifier
increments the counter. -/
def relStep (acc : Record × Nat) (d : RelatedIdentifier) : Record × Nat :=
  let res := add_related_identifier acc.1 d
  (res.1, if res.2 then acc.2 + 1 else acc.2)

/-- The related-identifiers block (auto_correction_processor.py:266-273):
no flag is consulted; a single object is normalized to a one-element list;
the loop folds `relStep` over the normalized list. -/
def stepRelated (qa : QAReport) (s : Record × Nat) : Record × Nat :=
  match qa.corrections.related_identifiers with
  | none => s
  | some spec => spec.toList.foldl relStep s

/-- The correction-application section of `process_qa_report`
(auto_correction_processor.py:225-273): the blocks run in source order on
the deep copy, starting from `corrections_applied = 0`. -/
def processCorrections (qa : QAReport) (record : Record) : Record × Nat :=
  stepRelated qa (stepDate qa (stepDescriptor qa (stepAffiliation qa
    (stepAbstract qa (stepTitle qa (record, 0))))))

/-- The record reached after the five flag-gated blocks, before the
related-identifier block. -/
def recordAfterKinds (qa : QAReport) (record : Record) : Record :=
  (stepDate qa (stepDescriptor qa (stepAffiliation qa
    (stepAbstract qa (stepTitle qa (record, 0)))))).1

/-- The saved `corrected_data` bundle (auto_correction_processor.py:288-293);
the timestamp and source path of `correction_metadata` are I/O details and
omitted. -/
structure CorrectedData where
  corrected_record : Record
  corrections_applied : Nat
  original_record : Record
deriving DecidableEq

/-- `process_qa_report` (auto_correction_processor.py:207-310): requires a
truthy `record_id` and a fetched record, deep-copies the record, applies
the correction blocks, and writes a bundle only when at least one
correction was applied.  The fetch is a parameter (`none` models a failed
fetch). -/
def process_qa_report (qa : QAReport) (fetched : Option Record) : Option CorrectedData :=
  match qa.record_id with
  | none => none
  | some rid =>
    if rid = "" then none
    else
      match fetched with
      | none => none
      | some original_record =>
        let corrected_record := original_record
        let res := processCorrections qa corrected_record
        if 0 < res.2 then some ⟨res.1, res.2, original_record⟩ else none

end AutoCorrectionProcessor

/-! ## auto_correction_applier.py — the live-repository applier -/

namespace AutoCorrectionApplier

/-- `apply_title_correction` (auto_correction_applier.py:114-126) — same body
as the processor variant. -/
def apply_title_correction (record_data : Record) (new_title : String) : Record :=
  let m := record_data.metadata.getD emptyMetadata
  { record_data with metadata := some { m with title := some new_title } }

/-- The inner correction scan of `apply_affiliation_corrections`
(auto_correction_applier.py:134-147) for one affiliation entry:
`current_name` is read once before the loop, so every pair is compared
against the ORIGINAL name even after an earlier pair overwrote it; each
matching pair with a non-empty replacement overwrites the name and
increments the count. -/
def applierAffOne (cs : List AffCorrection) (a : Affiliation) : Affiliation × Nat :=
  cs.foldl (fun acc c =>
    if a.name = c.old_affiliation ∧ ¬ c.recommended_affiliation = "" then
      ({ acc.1 with name := c.recommended_affiliation }, acc.2 + 1)
    else acc) (a, 0)

/-- `apply_affiliation_corrections` (auto_correction_applier.py:128-152):
scan every creator's every affiliation, returning `applied_count > 0`. -/
def apply_affiliation_corrections (record_data : Record) (cs : List AffCorrection) :
    Record × Bool :=
  match record_data.metadata with
  | none => (record_data, false)
  | some m =>
    let per := m.creators.map (fun cr =>
      let affRes := cr.affiliations.map (applierAffOne cs)
      ({ cr with affiliations := affRes.map Prod.fst }, (affRes.map Prod.snd).sum))
    ({ record_data with metadata := some { m with creators := per.map Prod.fst } },
     decide (0 < (per.map Prod.snd).sum))

/-- The per-creator scan of `apply_organizational_author_corrections`
(auto_correction_applier.py:160-173): only creators whose
`person_or_org.type` is `"organizational"` are considered; `current_name`
is read once, so pairs compare against the original name. -/
def applierOrgOne (cs : List OrgCorrection) (p : PersonOrOrg) : PersonOrOrg × Nat :=
  if p.type = "organizational" then
    cs.foldl (fun acc c =>
      if p.name = c.old_organizational_author ∧
          ¬ c.recommended_organizational_author = "" then
        ({ acc.1 with name := c.recommended_organizational_author }, acc.2 + 1)
      else acc) (p, 0)
  else (p, 0)

/-- `apply_organizational_author_corrections` (auto_correction_applier.py:154-178). -/
def apply_organizational_author_corrections (record_data : Record)
    (cs : List OrgCorrection) : Record × Bool :=
  match record_data.metadata with
  | none => (record_data, false)
  | some m =>
    let per := m.creators.map (fun cr =>
      let res := applierOrgOne cs cr.person_or_org
      ({ cr with person_or_org := res.1 }, res.2))
    ({ record_data with metadata := some { m with creators := per.map Prod.fst } },
     decide (0 < (per.map Prod.snd).sum))

/-- `mark_qa_checked` (auto_correction_applier.py:180-184): create
`custom_fields` if absent, then set `iaea:qa_checked = True`. -/
def mark_qa_checked (record_data : Record) : Record :=
  match record_data.custom_fields with
  | none => { record_data with custom_fields := some ⟨some true, none, none⟩ }
  | some cf => { record_data with custom_fields := some { cf with qa_checked := some true } }

/-- The draft-mutation section of `update_record`
(auto_correction_applier.py:262-284), applied to the fetched full draft:
title whenever the `title` key is present (no flag is consulted),
affiliation and organizational-author corrections whenever their lists are
non-empty, then unconditionally `mark_qa_checked`.  Returns the mutated
draft and `corrections_applied`. -/
def update_record_mutation (corrections_data : QAReport) (full_draft : Record) :
    Record × Nat :=
  let s0 : Record × Nat := (full_draft, 0)
  let s1 := match corrections_data.corrections.title with
    | some t => (apply_title_correction s0.1 t, s0.2 + 1)
    | none => s0
  let s2 := if corrections_data.affiliation_corrections.isEmpty then s1
    else
      let res := apply_affiliation_corrections s1.1 corrections_data.affiliation_corrections
      (res.1, if res.2 then s1.2 + 1 else s1.2)
  let s3 := if corrections_data.organizational_author_corrections.isEmpty then s2
    else
      let res := apply_organizational_author_corrections s2.1
        corrections_data.organizational_author_corrections
      (res.1, if res.2 then s2.2 + 1 else s2.2)
  (mark_qa_checked s3.1, s3.2)

/-- The HTTP requests the applier can issue against the repository. -/
inductive ApiRequest where
  | postDraft (record_id : String)
  | getDraft (record_id : String)
  | putDraft (record_id : String) (payload : Record)
  | postPublish (record_id : String)
deriving DecidableEq

/-- Requests that mutate the live repository: draft creation (POST
`/records/{id}/draft`), draft update (PUT) and publish (POST
`.../actions/publish`); the draft GET is read-only. -/
def ApiRequest.isMutating : ApiRequest → Bool
  | .postDraft _ => true
  | .getDraft _ => false
  | .putDraft _ _ => true
  | .postPublish _ => true

/-- The request trace of `update_record` (auto_correction_applier.py:240-314).
The two response parameters stand for the external replies: whether the
draft-creation reply contained an `id`, and the full draft returned by the
GET (`none` for an empty/failed reply).  The draft POST and GET are issued
unconditionally; only the PUT and the publish POST are gated on
`dry_run`. -/
def update_record_requests (dry_run : Bool) (record_id : String)
    (corrections_data : QAReport) (draft_resp_has_id : Bool)
    (full_draft : Option Record) : List ApiRequest :=
  [ApiRequest.postDraft record_id] ++
    (if ¬ draft_resp_has_id then []
     else
       [ApiRequest.getDraft record_id] ++
         (match full_draft with
          | none => []
          | some d =>
            if dry_run then []
            else
              [ApiRequest.putDraft record_id (update_record_mutation corrections_data d).1,
               ApiRequest.postPublish record_id]))

/-- The request trace of `mark_record_as_qa_checked_only`
(auto_correction_applier.py:186-238): same shape, with `mark_qa_checked`
as the payload mutation. -/
def mark_record_as_qa_checked_only_requests (dry_run : Bool) (record_id : String)
    (draft_resp_has_id : Bool) (full_draft : Option Record) : List ApiRequest :=
  [ApiRequest.postDraft record_id] ++
    (if ¬ draft_resp_has_id then []
     else
       [ApiRequest.getDraft record_id] ++
         (match full_draft with
          | none => []
          | some d =>
            if dry_run then []
            else
              [ApiRequest.putDraft record_id (mark_qa_checked d),
               ApiRequest.postPublish record_id]))

end AutoCorrectionApplier

/-! ## o4-INISQAChecker.py — deterministic QA checks -/

namespace INISQAChecker

/-- A `datetime.datetime` value down to seconds (sub-second precision is not
needed by any comparison proved here). -/
structure DateTime where
  year : Nat
  month : Nat
  day : Nat
  hour : Nat
  minute : Nat
  second : Nat
deriving DecidableEq

/-- Lexicographic `datetime` comparison, `a < b`. -/
def dtLt (a b : DateTime) : Bool :=
  if a.year ≠ b.year then decide (a.year < b.year)
  else if a.month ≠ b.month then decide (a.month < b.month)
  else if a.day ≠ b.day then decide (a.day < b.day)
  else if a.hour ≠ b.hour then decide (a.hour < b.hour)
  else if a.minute ≠ b.minute then decide (a.minute < b.minute)
  else decide (a.second < b.second)

/-- Numeric value of a decimal digit character. -/
def digitVal (c : Char) : Nat := c.toNat - '0'.toNat

/-- CPython strptime directive `%Y`: exactly four decimal digits. -/
def matchYear : List Char → Option (Nat × List Char)
  | a :: b :: c :: d :: rest =>
    if a.isDigit ∧ b.isDigit ∧ c.isDigit ∧ d.isDigit then
      some (1000 * digitVal a + 100 * digitVal b + 10 * digitVal c + digitVal d, rest)
    else none
  | _ => none

/-- CPython strptime directive `%m`: the regex `1[0-2]|0[1-9]|[1-9]`,
alternatives tried left to right. -/
def matchMonth : List Char → Option (Nat × List Char)
  | '1' :: c :: rest =>
    if c = '0' ∨ c = '1' ∨ c = '2' then some (10 + digitVal c, rest)
    else some (1, c :: rest)
  | '0' :: c :: rest =>
    if c.isDigit ∧ c ≠ '0' then some (digitVal c, rest) else none
  | c :: rest =>
    if c.isDigit ∧ c ≠ '0' then some (digitVal c, rest) else none
  | [] => none

/-- CPython strptime directive `%d`: the regex `3[01]|[12]\d|0[1-9]|[1-9]`,
alternatives tried left to right. -/
def matchDay : List Char → Option (Nat × List Char)
  | '3' :: c :: rest =>
    if c = '0' ∨ c = '1' then some (30 + digitVal c, rest)
    else some (3, c :: rest)
  | '1' :: c :: rest =>
    if c.isDigit then some (10 + digitVal c, rest) else some (1, c :: rest)
  | '2' :: c :: rest =>
    if c.isDigit then some (20 + digitVal c, rest) else some (2, c :: rest)
  | '0' :: c :: rest =>
    if c.isDigit ∧ c ≠ '0' then some (digitVal c, rest) else none
  | c :: rest =>
    if c.isDigit ∧ c ≠ '0' then some (digitVal c, rest) else none
  | [] => none

/-- Day count of a month, with the Gregorian leap rule, as validated by the
`datetime` constructor. -/
def daysInMonth (y m : Nat) : Nat :=
  if m = 2 then
    if (y % 4 = 0 ∧ y % 100 ≠ 0) ∨ y % 400 = 0 then 29 else 28
  else if m = 4 ∨ m = 6 ∨ m = 9 ∨ m = 11 then 30 else 31

/-- `datetime.strptime(date_str, "%Y-%m-%d")`: the whole string must be
consumed, and the `datetime` constructor additionally requires a positive
year and a day within the month. -/
def strptime_Ymd (s : String) : Option (Nat × Nat × Nat) :=
  match matchYear s.toList with
  | none => none
  | some (y, rest) =>
    match rest with
    | '-' :: rest2 =>
      match matchMonth rest2 with
      | none => none
      | some (m, rest3) =>
        match rest3 with
        | '-' :: rest4 =>
          match matchDay rest4 with
          | some (d, []) =>
            if 1 ≤ y ∧ d ≤ daysInMonth y m then some (y, m, d) else none
          | _ => none
        | _ => none
    | _ => none

/-- `datetime.strptime(date_str, "%Y-%m")`, with the day defaulting to 1. -/
def strptime_Ym (s : String) : Option (Nat × Nat) :=
  match matchYear s.toList with
  | none => none
  | some (y, rest) =>
    match rest with
    | '-' :: rest2 =>
      match matchMonth rest2 with
      | some (m, []) => if 1 ≤ y then some (y, m) else none
      | _ => none
    | _ => none

/-- `is_future_date` (o4-INISQAChecker.py:148-156): try `%Y-%m-%d`, fall back
to `%Y-%m`, compare strictly against `datetime.now()` (a parameter here),
and return False for a string neither format parses. -/
def is_future_date (date_str : String) (now : DateTime) : Bool :=
  match strptime_Ymd date_str with
  | some (y, m, d) => dtLt now ⟨y, m, d, 0, 0, 0⟩
  | none =>
    match strptime_Ym date_str with
    | some (y, m) => dtLt now ⟨y, m, 1, 0, 0, 0⟩
    | none => false

/-- `is_valid_lead_record_id` (o4-INISQAChecker.py:144-146): full match of
`[a-z0-9]{5}-[a-z0-9]{5}`. -/
def is_valid_lead_record_id (value : String) : Bool :=
  let lowerAlnum := fun (c : Char) => (('a' ≤ c ∧ c ≤ 'z') ∨ ('0' ≤ c ∧ c ≤ '9') : Prop)
  match value.toList with
  | [a, b, c, d, e, '-', f, g, h, i, j] =>
    decide (lowerAlnum a ∧ lowerAlnum b ∧ lowerAlnum c ∧ lowerAlnum d ∧ lowerAlnum e ∧
      lowerAlnum f ∧ lowerAlnum g ∧ lowerAlnum h ∧ lowerAlnum i ∧ lowerAlnum j)
  | _ => false

end INISQAChecker

/-! ## qa_email_sender.py — report aggregation -/

namespace QAEmailSender

/-- A QA report file as read by `create_summary_report`.  The generic
`corrections` dict is split into its two specially-treated keys
(`delete_descriptor`, `abstract`) and the remaining `key: value` items,
each already rendered to the string the Python f-string would produce.
`scope_ok` defaults to True when missing, so it is a plain Bool. -/
structure AggReport where
  record_id : Option String
  title_corrected : Bool
  abstract_corrected : Bool
  descriptor_corrected : Bool
  date_corrected : Bool
  affiliation_correction_recommended : Bool
  affiliation_corrections : List AffCorrection
  organizational_author_corrections : List OrgCorrection
  scope_ok : Bool
  duplicate_by_title : Bool
  duplicate_by_doi : Bool
  suspicious_content : Bool
  historical_context_required : Bool
  delete_descriptor : Option StrOrList
  abstract : Option String
  other_corrections : List (String × String)
  recommendations : List String
deriving DecidableEq

/-- Truthiness of the `corrections` dict: non-empty iff any recognized part
is present. -/
def AggReport.correctionsTruthy (d : AggReport) : Bool :=
  d.delete_descriptor.isSome || d.abstract.isSome || !d.other_corrections.isEmpty

/-- A Python `set()` grown with `add`: insertion without duplicates. -/
def addToSet (s : List String) (x : String) : List String :=
  if x ∈ s then s else s ++ [x]

/-- A `defaultdict(list)` grown with `append`/`extend` under one key. -/
def addToMultiMap (m : List (String × List String)) (k : String) (vs : List String) :
    List (String × List String) :=
  if (m.map Prod.fst).contains k then
    m.map (fun p => if p.1 = k then (p.1, p.2 ++ vs) else p)
  else m ++ [(k, vs)]

/-- A plain dict assignment `m[k] = v`. -/
def setMapEntry (m : List (String × String)) (k v : String) : List (String × String) :=
  if (m.map Prod.fst).contains k then
    m.map (fun p => if p.1 = k then (p.1, v) else p)
  else m ++ [(k, v)]

/-- The aggregation state of `create_summary_report`
(qa_email_sender.py:41-61): the `summary` counter dict plus the issue
sets, per-record maps and the error list. -/
structure AggState where
  records_checked : Nat
  title_corrections : Nat
  affiliation_corrections : Nat
  organizational_author_corrections : Nat
  abstract_corrections : Nat
  descriptor_corrections : Nat
  date_corrections : Nat
  errors : Nat
  duplicates : List String
  out_of_scope : List String
  suspicious_content : List String
  historical_context : List String
  descriptor_deletions : List (String × List String)
  abstract_recommendations : List (String × String)
  general_recommendations : List (String × List String)
  corrections_summary : List (String × List String)
  error_list : List String
deriving DecidableEq

/-- The initial aggregation state. -/
def initState : AggState :=
  ⟨0, 0, 0, 0, 0, 0, 0, 0, [], [], [], [], [], [], [], [], []⟩

/-- The error branch of the scan loop (qa_email_sender.py:74-83): count the
error and record a message. -/
def addError (s : AggState) (msg : String) : AggState :=
  { s with errors := s.errors + 1, error_list := s.error_list ++ [msg] }

/-- The body of the scan loop for a file that parsed
(qa_email_sender.py:85-144).  `rid` is
`data.get("record_id", filepath.stem.replace("-report", ""))`. -/
def goodStep (stem : String) (d : AggReport) (s : AggState) : AggState :=
  let rid := d.record_id.getD (stem.replace "-report" "")
  { s with
    records_checked := s.records_checked + 1,
    title_corrections := s.title_corrections + (if d.title_corrected then 1 else 0),
    abstract_corrections := s.abstract_corrections + (if d.abstract_corrected then 1 else 0),
    descriptor_corrections :=
      s.descriptor_corrections + (if d.descriptor_corrected then 1 else 0),
    date_corrections := s.date_corrections + (if d.date_corrected then 1 else 0),
    affiliation_corrections := s.affiliation_corrections +
      (if d.affiliation_correction_recommended ∧ ¬ d.affiliation_corrections.isEmpty then
        d.affiliation_corrections.length else 0),
    organizational_author_corrections := s.organizational_author_corrections +
      (if ¬ d.organizational_author_corrections.isEmpty then
        d.organizational_author_corrections.length else 0),
    out_of_scope := if ¬ d.scope_ok then addToSet s.out_of_scope rid else s.out_of_scope,
    duplicates := if d.duplicate_by_title ∨ d.duplicate_by_doi then
        addToSet s.duplicates rid else s.duplicates,
    suspicious_content := if d.suspicious_content then
        addToSet s.suspicious_content rid else s.suspicious_content,
    historical_context := if d.historical_context_required then
        addToSet s.historical_context rid else s.historical_context,
    descriptor_deletions := match d.delete_descriptor with
      | some spec => addToMultiMap s.descriptor_deletions rid spec.toList
      | none => s.descriptor_deletions,
    abstract_recommendations := match d.abstract with
      | some a => if d.abstract_corrected then
          setMapEntry s.abstract_recommendations rid a
        else s.abstract_recommendations
      | none => s.abstract_recommendations,
    general_recommendations := if ¬ d.recommendations.isEmpty then
        addToMultiMap s.general_recommendations rid d.recommendations
      else s.general_recommendations,
    corrections_summary :=
      -- the defaultdict entry appears only when the item loop appends at
      -- least once, i.e. when a key other than the two excluded ones exists
      if d.correctionsTruthy ∧ ¬ d.other_corrections.isEmpty then
        addToMultiMap s.corrections_summary rid
          (d.other_corrections.map (fun p => p.1 ++ ": " ++ p.2))
      else s.corrections_summary }

/-- One iteration of the scan loop: a file is a stem name together with
`some` parsed report, or `none` when `json.load` raised. -/
def processFile (s : AggState) (file : String × Option AggReport) : AggState :=
  match file.2 with
  | none => addError s ("Could not parse " ++ file.1)
  | some d => goodStep file.1 d s

/-- `create_summary_report` (qa_email_sender.py:39-157) over the directory
listing, as a left fold of the scan loop. -/
def create_summary_report (files : List (String × Option AggReport)) : AggState :=
  files.foldl processFile initState

/-- The aggregation state with its error components blanked, used to compare
two scans up to their error reports. -/
def eraseErrors (s : AggState) : AggState := { s with errors := 0, error_list := [] }

end QAEmailSender

/-! ## Frame lemmas for the processor matchers -/

namespace AutoCorrectionProcessor

@[simp] theorem titleOf_apply_title_correction (r : Record) (t : String) :
    titleOf (apply_title_correction r t) = some t := by
  cases r with
  | mk md cf => cases md <;> rfl

@[simp] theorem custom_fields_apply_title_correction (r : Record) (t : String) :
    (apply_title_correction r t).custom_fields = r.custom_fields := by
  cases r with
  | mk md cf => cases md <;> rfl

@[simp] theorem descriptionOf_apply_title_correction (r : Record) (t : String) :
    descriptionOf (apply_title_correction r t) = descriptionOf r := by
  cases r with
  | mk md cf => cases md <;> rfl

@[simp] theorem pubDateOf_apply_title_correction (r : Record) (t : String) :
    pubDateOf (apply_title_correction r t) = pubDateOf r := by
  cases r with
  | mk md cf => cases md <;> rfl

@[simp] theorem creatorsOf_apply_title_correction (r : Record) (t : String) :
    creatorsOf (apply_title_correction r t) = creatorsOf r := by
  cases r with
  | mk md cf => cases md <;> rfl

@[simp] theorem relIdsOf_apply_title_correction (r : Record) (t : String) :
    relIdsOf (apply_title_correction r t) = relIdsOf r := by
  cases r with
  | mk md cf => cases md <;> rfl

@[simp] theorem descriptionOf_apply_abstract_correction (r : Record) (t : String) :
    descriptionOf (apply_abstract_correction r t) = some t := by
  cases r with
  | mk md cf => cases md <;> rfl

@[simp] theorem custom_fields_apply_abstract_correction (r : Record) (t : String) :
    (apply_abstract_correction r t).custom_fields = r.custom_fields := by
  cases r with
  | mk md cf => cases md <;> rfl

@[simp] theorem titleOf_apply_abstract_correction (r : Record) (t : String) :
    titleOf (apply_abstract_correction r t) = titleOf r := by
  cases r with
  | mk md cf => cases md <;> rfl

@[simp] theorem pubDateOf_apply_abstract_correction (r : Record) (t : String) :
    pubDateOf (apply_abstract_correction r t) = pubDateOf r := by
  cases r with
  | mk md cf => cases md <;> rfl

@[simp] theorem creatorsOf_apply_abstract_correction (r : Record) (t : String) :
    creatorsOf (apply_abstract_correction r t) = creatorsOf r := by
  cases r with
  | mk md cf => cases md <;> rfl

@[simp] theorem relIdsOf_apply_abstract_correction (r : Record) (t : String) :
    relIdsOf (apply_abstract_correction r t) = relIdsOf r := by
  cases r with
  | mk md cf => cases md <;> rfl

@[simp] theorem pubDateOf_apply_date_correction (r : Record) (t : String) :
    pubDateOf (apply_date_correction r t) = some t := by
  cases r with
  | mk md cf => cases md <;> rfl

@[simp] theorem custom_fields_apply_date_correction (r : Record) (t : String) :
    (apply_date_correction r t).custom_fields = r.custom_fields := by
  cases r with
  | mk md cf => cases md <;> rfl

@[simp] theorem titleOf_apply_date_correction (r : Record) (t : String) :
    titleOf (apply_date_correction r t) = titleOf r := by
  cases r with
  | mk md cf => cases md <;> rfl

@[simp] theorem descriptionOf_apply_date_correction (r : Record) (t : String) :
    descriptionOf (apply_date_correction r t) = descriptionOf r := by
  cases r with
  | mk md cf => cases md <;> rfl

@[simp] theorem creatorsOf_apply_date_correction (r : Record) (t : String) :
    creatorsOf (apply_date_correction r t) = creatorsOf r := by
  cases r with
  | mk md cf => cases md <;> rfl

@[simp] theorem relIdsOf_apply_date_correction (r : Record) (t : String) :
    relIdsOf (apply_date_correction r t) = relIdsOf r := by
  cases r with
  | mk md cf => cases md <;> rfl

@[simp] theorem titleOf_aff_core (r : Record) (cs : List AffCorrection) :
    titleOf (apply_affiliation_corrections_core r cs).1 = titleOf r := by
  cases r with
  | mk md cf => cases md <;> rfl

@[simp] theorem descriptionOf_aff_core (r : Record) (cs : List AffCorrection) :
    descriptionOf (apply_affiliation_corrections_core r cs).1 = descriptionOf r := by
  cases r with
  | mk md cf => cases md <;> rfl

@[simp] theorem pubDateOf_aff_core (r : Record) (cs : List AffCorrection) :
    pubDateOf (apply_affiliation_corrections_core r cs).1 = pubDateOf r := by
  cases r with
  | mk md cf => cases md <;> rfl

@[simp] theorem relIdsOf_aff_core (r : Record) (cs : List AffCorrection) :
    relIdsOf (apply_affiliation_corrections_core r cs).1 = relIdsOf r := by
  cases r with
  | mk md cf => cases md <;> rfl

@[simp] theorem custom_fields_aff_core (r : Record) (cs : List AffCorrection) :
    (apply_affiliation_corrections_core r cs).1.custom_fields = r.custom_fields := by
  cases r with
  | mk md cf => cases md <;> rfl

theorem affPairsFold_nil (cs : List AffCorrection) (n : Nat) :
    List.foldl (fun acc c => (affStepCreators acc.1 c, acc.2 + affStepCount acc.1 c))
      (([] : List Creator), n) cs = ([], n) := by
  induction cs generalizing n with
  | nil => rfl
  | cons c cs ih =>
    have h1 : affStepCreators [] c = [] := by unfold affStepCreators; split <;> rfl
    have h2 : affStepCount [] c = 0 := by unfold affStepCount; split <;> rfl
    simp [List.foldl, h1, h2, ih]

@[simp] theorem creatorsOf_aff_core (r : Record) (cs : List AffCorrection) :
    creatorsOf (apply_affiliation_corrections_core r cs).1 =
      (applyAffPairsFold (creatorsOf r) cs).1 := by
  cases r with
  | mk md cf =>
    cases md with
    | none =>
      simp [apply_affiliation_corrections_core, creatorsOf, applyAffPairsFold,
        affPairsFold_nil]
    | some m => rfl

@[simp] theorem count_aff_core (r : Record) (cs : List AffCorrection) :
    (apply_affiliation_corrections_core r cs).2 =
      (applyAffPairsFold (creatorsOf r) cs).2 := by
  cases r with
  | mk md cf =>
    cases md with
    | none =>
      simp [apply_affiliation_corrections_core, creatorsOf, applyAffPairsFold,
        affPairsFold_nil]
    | some m => rfl

@[simp] theorem metadata_setDescriptors (r : Record) (l : List String) :
    (setDescriptors r l).metadata = r.metadata := by
  cases r with
  | mk md cf => cases cf <;> rfl

@[simp] theorem metadata_apply_descriptor_deletions (r : Record) (l : List String) :
    (apply_descriptor_deletions r l).1.metadata = r.metadata := by
  simp only [apply_descriptor_deletions]
  split
  · rfl
  · simp [metadata_setDescriptors]

@[simp] theorem titleOf_apply_descriptor_deletions (r : Record) (l : List String) :
    titleOf (apply_descriptor_deletions r l).1 = titleOf r := by
  simp [titleOf, metadata_apply_descriptor_deletions]

@[simp] theorem descriptionOf_apply_descriptor_deletions (r : Record) (l : List String) :
    descriptionOf (apply_descriptor_deletions r l).1 = descriptionOf r := by
  simp [descriptionOf, metadata_apply_descriptor_deletions]

@[simp] theorem pubDateOf_apply_descriptor_deletions (r : Record) (l : List String) :
    pubDateOf (apply_descriptor_deletions r l).1 = pubDateOf r := by
  simp [pubDateOf, metadata_apply_descriptor_deletions]

@[simp] theorem creatorsOf_apply_descriptor_deletions (r : Record) (l : List String) :
    creatorsOf (apply_descriptor_deletions r l).1 = creatorsOf r := by
  simp [creatorsOf, metadata_apply_descriptor_deletions]

@[simp] theorem relIdsOf_apply_descriptor_deletions (r : Record) (l : List String) :
    relIdsOf (apply_descriptor_deletions r l).1 = relIdsOf r := by
  simp [relIdsOf, metadata_apply_descriptor_deletions]

@[simp] theorem titleOf_add_related_identifier (r : Record) (d : RelatedIdentifier) :
    titleOf (add_related_identifier r d).1 = titleOf r := by
  cases r with
  | mk md cf =>
    cases md with
    | none => rfl
    | some m =>
      simp only [add_related_identifier]
      split <;> rfl

@[simp] theorem descriptionOf_add_related_identifier (r : Record) (d : RelatedIdentifier) :
    descriptionOf (add_related_identifier r d).1 = descriptionOf r := by
  cases r with
  | mk md cf =>
    cases md with
    | none => rfl
    | some m =>
      simp only [add_related_identifier]
      split <;> rfl

@[simp] theorem pubDateOf_add_related_identifier (r : Record) (d : RelatedIdentifier) :
    pubDateOf (add_related_identifier r d).1 = pubDateOf r := by
  cases r with
  | mk md cf =>
    cases md with
    | none => rfl
    | some m =>
      simp only [add_related_identifier]
      split <;> rfl

@[simp] theorem creatorsOf_add_related_identifier (r : Record) (d : RelatedIdentifier) :
    creatorsOf (add_related_identifier r d).1 = creatorsOf r := by
  cases r with
  | mk md cf =>
    cases md with
    | none => rfl
    | some m =>
      simp only [add_related_identifier]
      split <;> rfl

@[simp] theorem custom_fields_add_related_identifier (r : Record) (d : RelatedIdentifier) :
    (add_related_identifier r d).1.custom_fields = r.custom_fields := by
  cases r with
  | mk md cf =>
    cases md with
    | none => rfl
    | some m =>
      simp only [add_related_identifier]
      split <;> rfl

end AutoCorrectionProcessor

namespace AutoCorrectionProcessor

/-! ### Step-level lemmas for the processor pipeline -/

theorem stepTitle_skip (qa : QAReport) (s : Record × Nat)
    (h : ¬(qa.title_corrected = true ∧ (qa.corrections.title).isSome = true)) :
    stepTitle qa s = s := by
  cases hb : qa.title_corrected with
  | false => simp [stepTitle, hb]
  | true =>
    cases ht : qa.corrections.title with
    | none => simp [stepTitle, hb, ht]
    | some t => exact absurd ⟨hb, by simp [ht]⟩ h

theorem stepAbstract_skip (qa : QAReport) (s : Record × Nat)
    (h : ¬(qa.abstract_corrected = true ∧ (qa.corrections.abstract).isSome = true)) :
    stepAbstract qa s = s := by
  cases hb : qa.abstract_corrected with
  | false => simp [stepAbstract, hb]
  | true =>
    cases ht : qa.corrections.abstract with
    | none => simp [stepAbstract, hb, ht]
    | some t => exact absurd ⟨hb, by simp [ht]⟩ h

theorem stepDate_skip (qa : QAReport) (s : Record × Nat)
    (h : ¬(qa.date_corrected = true ∧ (qa.corrections.publication_date).isSome = true)) :
    stepDate qa s = s := by
  cases hb : qa.date_corrected with
  | false => simp [stepDate, hb]
  | true =>
    cases ht : qa.corrections.publication_date with
    | none => simp [stepDate, hb, ht]
    | some t => exact absurd ⟨hb, by simp [ht]⟩ h

theorem stepDescriptor_skip (qa : QAReport) (s : Record × Nat)
    (h : ¬(qa.descriptor_corrected = true ∧ (qa.corrections.delete_descriptor).isSome = true)) :
    stepDescriptor qa s = s := by
  cases hb : qa.descriptor_corrected with
  | false => simp [stepDescriptor, hb]
  | true =>
    cases ht : qa.corrections.delete_descriptor with
    | none => simp [stepDescriptor, hb, ht]
    | some t => exact absurd ⟨hb, by simp [ht]⟩ h

theorem stepAffiliation_skip (qa : QAReport) (s : Record × Nat)
    (h : ¬(qa.affiliation_correction_recommended = true ∧ qa.affiliation_corrections ≠ [])) :
    stepAffiliation qa s = s := by
  cases hb : qa.affiliation_correction_recommended with
  | false => simp [stepAffiliation, hb]
  | true =>
    have he : qa.affiliation_corrections = [] := by
      by_contra hne
      exact h ⟨hb, hne⟩
    simp [stepAffiliation, hb, he]

theorem stepRelated_skip (qa : QAReport) (s : Record × Nat)
    (h : qa.corrections.related_identifiers = none) :
    stepRelated qa s = s := by
  simp [stepRelated, h]

@[simp] theorem titleOf_stepAbstract (qa : QAReport) (s : Record × Nat) :
    titleOf (stepAbstract qa s).1 = titleOf s.1 := by
  unfold stepAbstract
  split
  · split <;> simp
  · rfl

@[simp] theorem titleOf_stepAffiliation (qa : QAReport) (s : Record × Nat) :
    titleOf (stepAffiliation qa s).1 = titleOf s.1 := by
  unfold stepAffiliation
  split
  · split
    · rfl
    · simp [apply_affiliation_corrections]
  · rfl

@[simp] theorem titleOf_stepDescriptor (qa : QAReport) (s : Record × Nat) :
    titleOf (stepDescriptor qa s).1 = titleOf s.1 := by
  unfold stepDescriptor
  split
  · split
    · rfl
    · dsimp only
      split
      · rfl
      · simp
  · rfl

@[simp] theorem titleOf_stepDate (qa : QAReport) (s : Record × Nat) :
    titleOf (stepDate qa s).1 = titleOf s.1 := by
  unfold stepDate
  split
  · split <;> simp
  · rfl

theorem titleOf_relFold (ds : List RelatedIdentifier) (s : Record × Nat) :
    titleOf (ds.foldl relStep s).1 = titleOf s.1 := by
  induction ds generalizing s with
  | nil => rfl
  | cons d ds ih => rw [List.foldl_cons, ih]; simp [relStep]

@[simp] theorem titleOf_stepRelated (qa : QAReport) (s : Record × Nat) :
    titleOf (stepRelated qa s).1 = titleOf s.1 := by
  unfold stepRelated
  split
  · rfl
  · exact titleOf_relFold _ _

@[simp] theorem descriptionOf_stepTitle (qa : QAReport) (s : Record × Nat) :
    descriptionOf (stepTitle qa s).1 = descriptionOf s.1 := by
  unfold stepTitle
  split
  · split <;> simp
  · rfl

@[simp] theorem descriptionOf_stepAffiliation (qa : QAReport) (s : Record × Nat) :
    descriptionOf (stepAffiliation qa s).1 = descriptionOf s.1 := by
  unfold stepAffiliation
  split
  · split
    · rfl
    · simp [apply_affiliation_corrections]
  · rfl

@[simp] theorem descriptionOf_stepDescriptor (qa : QAReport) (s : Record × Nat) :
    descriptionOf (stepDescriptor qa s).1 = descriptionOf s.1 := by
  unfold stepDescriptor
  split
  · split
    · rfl
    · dsimp only
      split
      · rfl
      · simp
  · rfl

@[simp] theorem descriptionOf_stepDate (qa : QAReport) (s : Record × Nat) :
    descriptionOf (stepDate qa s).1 = descriptionOf s.1 := by
  unfold stepDate
  split
  · split <;> simp
  · rfl

theorem descriptionOf_relFold (ds : List RelatedIdentifier) (s : Record × Nat) :
    descriptionOf (ds.foldl relStep s).1 = descriptionOf s.1 := by
  induction ds generalizing s with
  | nil => rfl
  | cons d ds ih => rw [List.foldl_cons, ih]; simp [relStep]

@[simp] theorem descriptionOf_stepRelated (qa : QAReport) (s : Record × Nat) :
    descriptionOf (stepRelated qa s).1 = descriptionOf s.1 := by
  unfold stepRelated
  split
  · rfl
  · exact descriptionOf_relFold _ _

@[simp] theorem pubDateOf_stepTitle (qa : QAReport) (s : Record × Nat) :
    pubDateOf (stepTitle qa s).1 = pubDateOf s.1 := by
  unfold stepTitle
  split
  · split <;> simp
  · rfl

@[simp] theorem pubDateOf_stepAbstract (qa : QAReport) (s : Record × Nat) :
    pubDateOf (stepAbstract qa s).1 = pubDateOf s.1 := by
  unfold stepAbstract
  split
  · split <;> simp
  · rfl

@[simp] theorem pubDateOf_stepAffiliation (qa : QAReport) (s : Record × Nat) :
    pubDateOf (stepAffiliation qa s).1 = pubDateOf s.1 := by
  unfold stepAffiliation
  split
  · split
    · rfl
    · simp [apply_affiliation_corrections]
  · rfl

@[simp] theorem pubDateOf_stepDescriptor (qa : QAReport) (s : Record × Nat) :
    pubDateOf (stepDescriptor qa s).1 = pubDateOf s.1 := by
  unfold stepDescriptor
  split
  · split
    · rfl
    · dsimp only
      split
      · rfl
      · simp
  · rfl

theorem pubDateOf_relFold (ds : List RelatedIdentifier) (s : Record × Nat) :
    pubDateOf (ds.foldl relStep s).1 = pubDateOf s.1 := by
  induction ds generalizing s with
  | nil => rfl
  | cons d ds ih => rw [List.foldl_cons, ih]; simp [relStep]

@[simp] theorem pubDateOf_stepRelated (qa : QAReport) (s : Record × Nat) :
    pubDateOf (stepRelated qa s).1 = pubDateOf s.1 := by
  unfold stepRelated
  split
  · rfl
  · exact pubDateOf_relFold _ _

@[simp] theorem creatorsOf_stepTitle (qa : QAReport) (s : Record × Nat) :
    creatorsOf (stepTitle qa s).1 = creatorsOf s.1 := by
  unfold stepTitle
  split
  · split <;> simp
  · rfl

@[simp] theorem creatorsOf_stepAbstract (qa : QAReport) (s : Record × Nat) :
    creatorsOf (stepAbstract qa s).1 = creatorsOf s.1 := by
  unfold stepAbstract
  split
  · split <;> simp
  · rfl

@[simp] theorem creatorsOf_stepDescriptor (qa : QAReport) (s : Record × Nat) :
    creatorsOf (stepDescriptor qa s).1 = creatorsOf s.1 := by
  unfold stepDescriptor
  split
  · split
    · rfl
    · dsimp only
      split
      · rfl
      · simp
  · rfl

@[simp] theorem creatorsOf_stepDate (qa : QAReport) (s : Record × Nat) :
    creatorsOf (stepDate qa s).1 = creatorsOf s.1 := by
  unfold stepDate
  split
  · split <;> simp
  · rfl

theorem creatorsOf_relFold (ds : List RelatedIdentifier) (s : Record × Nat) :
    creatorsOf (ds.foldl relStep s).1 = creatorsOf s.1 := by
  induction ds generalizing s with
  | nil => rfl
  | cons d ds ih => rw [List.foldl_cons, ih]; simp [relStep]

@[simp] theorem creatorsOf_stepRelated (qa : QAReport) (s : Record × Nat) :
    creatorsOf (stepRelated qa s).1 = creatorsOf s.1 := by
  unfold stepRelated
  split
  · rfl
  · exact creatorsOf_relFold _ _

@[simp] theorem relIdsOf_stepTitle (qa : QAReport) (s : Record × Nat) :
    relIdsOf (stepTitle qa s).1 = relIdsOf s.1 := by
  unfold stepTitle
  split
  · split <;> simp
  · rfl

@[simp] theorem relIdsOf_stepAbstract (qa : QAReport) (s : Record × Nat) :
    relIdsOf (stepAbstract qa s).1 = relIdsOf s.1 := by
  unfold stepAbstract
  split
  · split <;> simp
  · rfl

@[simp] theorem relIdsOf_stepAffiliation (qa : QAReport) (s : Record × Nat) :
    relIdsOf (stepAffiliation qa s).1 = relIdsOf s.1 := by
  unfold stepAffiliation
  split
  · split
    · rfl
    · simp [apply_affiliation_corrections]
  · rfl

@[simp] theorem relIdsOf_stepDescriptor (qa : QAReport) (s : Record × Nat) :
    relIdsOf (stepDescriptor qa s).1 = relIdsOf s.1 := by
  unfold stepDescriptor
  split
  · split
    · rfl
    · dsimp only
      split
      · rfl
      · simp
  · rfl

@[simp] theorem relIdsOf_stepDate (qa : QAReport) (s : Record × Nat) :
    relIdsOf (stepDate qa s).1 = relIdsOf s.1 := by
  unfold stepDate
  split
  · split <;> simp
  · rfl

@[simp] theorem descriptorsOf_stepTitle (qa : QAReport) (s : Record × Nat) :
    descriptorsOf (stepTitle qa s).1 = descriptorsOf s.1 := by
  unfold stepTitle
  split
  · split <;> simp [descriptorsOf]
  · rfl

@[simp] theorem descriptorsOf_stepAbstract (qa : QAReport) (s : Record × Nat) :
    descriptorsOf (stepAbstract qa s).1 = descriptorsOf s.1 := by
  unfold stepAbstract
  split
  · split <;> simp [descriptorsOf]
  · rfl

@[simp] theorem descriptorsOf_stepAffiliation (qa : QAReport) (s : Record × Nat) :
    descriptorsOf (stepAffiliation qa s).1 = descriptorsOf s.1 := by
  unfold stepAffiliation
  split
  · split
    · rfl
    · simp [apply_affiliation_corrections, descriptorsOf]
  · rfl

@[simp] theorem descriptorsOf_stepDate (qa : QAReport) (s : Record × Nat) :
    descriptorsOf (stepDate qa s).1 = descriptorsOf s.1 := by
  unfold stepDate
  split
  · split <;> simp [descriptorsOf]
  · rfl

theorem descriptorsOf_relFold (ds : List RelatedIdentifier) (s : Record × Nat) :
    descriptorsOf (ds.foldl relStep s).1 = descriptorsOf s.1 := by
  induction ds generalizing s with
  | nil => rfl
  | cons d ds ih => rw [List.foldl_cons, ih]; simp [relStep, descriptorsOf]

@[simp] theorem descriptorsOf_stepRelated (qa : QAReport) (s : Record × Nat) :
    descriptorsOf (stepRelated qa s).1 = descriptorsOf s.1 := by
  unfold stepRelated
  split
  · rfl
  · exact descriptorsOf_relFold _ _

end AutoCorrectionProcessor

namespace AutoCorrectionProcessor

/-- Whether the descriptor-deletion matcher would report success on `r` for
the (unnormalized) `delete_descriptor` value. -/
def descriptorDeletionFires (r : Record) (spec : Option StrOrList) : Bool :=
  match spec with
  | none => false
  | some sp => !sp.toList.isEmpty && (apply_descriptor_deletions r sp.toList).2

/-- The normalized `corrections.related_identifiers` list of a report. -/
def relListOf (qa : QAReport) : List RelatedIdentifier :=
  match qa.corrections.related_identifiers with
  | none => []
  | some spec => spec.toList

/-- How many identifiers the related-identifier loop appends when run on `r`. -/
def relAppendedCount (r : Record) (ds : List RelatedIdentifier) : Nat :=
  (ds.foldl relStep (r, 0)).2

theorem count_stepTitle (qa : QAReport) (s : Record × Nat) :
    (stepTitle qa s).2 = s.2 +
      (if qa.title_corrected = true ∧ (qa.corrections.title).isSome = true then 1 else 0) := by
  cases hb : qa.title_corrected <;> cases ht : qa.corrections.title <;>
    simp [stepTitle, hb, ht]

theorem count_stepAbstract (qa : QAReport) (s : Record × Nat) :
    (stepAbstract qa s).2 = s.2 +
      (if qa.abstract_corrected = true ∧ (qa.corrections.abstract).isSome = true then 1 else 0) := by
  cases hb : qa.abstract_corrected <;> cases ht : qa.corrections.abstract <;>
    simp [stepAbstract, hb, ht]

theorem count_stepDate (qa : QAReport) (s : Record × Nat) :
    (stepDate qa s).2 = s.2 +
      (if qa.date_corrected = true ∧ (qa.corrections.publication_date).isSome = true then 1 else 0) := by
  cases hb : qa.date_corrected <;> cases ht : qa.corrections.publication_date <;>
    simp [stepDate, hb, ht]

theorem count_stepAffiliation (qa : QAReport) (s : Record × Nat) :
    (stepAffiliation qa s).2 = s.2 +
      (if qa.affiliation_correction_recommended = true ∧ qa.affiliation_corrections ≠ [] ∧
          0 < (applyAffPairsFold (creatorsOf s.1) qa.affiliation_corrections).2
        then 1 else 0) := by
  cases hb : qa.affiliation_correction_recommended with
  | false => simp [stepAffiliation, hb]
  | true =>
    cases hl : qa.affiliation_corrections with
    | nil => simp [stepAffiliation, hb, hl]
    | cons c cs =>
      simp only [stepAffiliation, hb, hl, apply_affiliation_corrections, count_aff_core,
        if_true, List.isEmpty_cons, Bool.false_eq_true, ite_false]
      by_cases hc : 0 < (applyAffPairsFold (creatorsOf s.1) (c :: cs)).2 <;>
        simp [hc]

theorem count_stepDescriptor (qa : QAReport) (s : Record × Nat) :
    (stepDescriptor qa s).2 = s.2 +
      (if qa.descriptor_corrected = true ∧
          descriptorDeletionFires s.1 qa.corrections.delete_descriptor = true
        then 1 else 0) := by
  cases hb : qa.descriptor_corrected with
  | false => simp [stepDescriptor, hb]
  | true =>
    cases ht : qa.corrections.delete_descriptor with
    | none => simp [stepDescriptor, hb, ht, descriptorDeletionFires]
    | some sp =>
      simp only [stepDescriptor, hb, ht, descriptorDeletionFires, if_true]
      cases he : sp.toList.isEmpty with
      | true => simp [he]
      | false =>
        cases hr : (apply_descriptor_deletions s.1 sp.toList).2 <;>
          simp [he, hr]

theorem relFold_shift (ds : List RelatedIdentifier) (r : Record) (n : Nat) :
    ds.foldl relStep (r, n) =
      ((ds.foldl relStep (r, 0)).1, n + (ds.foldl relStep (r, 0)).2) := by
  induction ds generalizing r n with
  | nil => simp
  | cons d ds ih =>
    simp only [List.foldl_cons, relStep]
    rw [ih (add_related_identifier r d).1
      (if (add_related_identifier r d).2 then n + 1 else n)]
    rw [ih (add_related_identifier r d).1
      (if (add_related_identifier r d).2 then 0 + 1 else 0)]
    cases hb : (add_related_identifier r d).2 with
    | false => simp [hb]
    | true =>
      simp [hb]
      omega

theorem count_stepRelated (qa : QAReport) (s : Record × Nat) :
    (stepRelated qa s).2 = s.2 + relAppendedCount s.1 (relListOf qa) := by
  cases ht : qa.corrections.related_identifiers with
  | none => simp [stepRelated, ht, relListOf, relAppendedCount]
  | some spec =>
    simp only [stepRelated, ht, relListOf, relAppendedCount]
    cases s with
    | mk r n => rw [relFold_shift]

theorem record_stepRelated (qa : QAReport) (s : Record × Nat) :
    (stepRelated qa s).1 = ((relListOf qa).foldl relStep (s.1, 0)).1 := by
  cases ht : qa.corrections.related_identifiers with
  | none => simp [stepRelated, ht, relListOf]
  | some spec =>
    simp only [stepRelated, ht, relListOf]
    cases s with
    | mk r n => rw [relFold_shift]

theorem apply_descriptor_deletions_snd_congr (r1 r2 : Record) (l : List String)
    (h : descriptorsOf r1 = descriptorsOf r2) :
    (apply_descriptor_deletions r1 l).2 = (apply_descriptor_deletions r2 l).2 := by
  unfold apply_descriptor_deletions
  rw [h]
  dsimp only
  split <;> rfl

theorem descriptorDeletionFires_congr (r1 r2 : Record) (spec : Option StrOrList)
    (h : descriptorsOf r1 = descriptorsOf r2) :
    descriptorDeletionFires r1 spec = descriptorDeletionFires r2 spec := by
  cases spec with
  | none => rfl
  | some sp =>
    simp only [descriptorDeletionFires]
    rw [apply_descriptor_deletions_snd_congr r1 r2 sp.toList h]

end AutoCorrectionProcessor

/-- The affiliation lists of all creators, in order. -/
def affiliationsOf (r : Record) : List (List Affiliation) :=
  (creatorsOf r).map (·.affiliations)

/-- The `person_or_org` objects of all creators, in order. -/
def orgAuthorsOf (r : Record) : List PersonOrOrg :=
  (creatorsOf r).map (·.person_or_org)

theorem creatorsOf_congr (r1 r2 : Record) (h : r1.metadata = r2.metadata) :
    creatorsOf r1 = creatorsOf r2 := by
  simp [creatorsOf, h]

namespace AutoCorrectionApplier

@[simp] theorem qaCheckedOf_mark_qa_checked (r : Record) :
    qaCheckedOf (mark_qa_checked r) = some true := by
  cases r with
  | mk md cf => cases cf <;> rfl

@[simp] theorem metadata_mark_qa_checked (r : Record) :
    (mark_qa_checked r).metadata = r.metadata := by
  cases r with
  | mk md cf => cases cf <;> rfl

@[simp] theorem titleOf_mark_qa_checked (r : Record) :
    titleOf (mark_qa_checked r) = titleOf r := by
  simp [titleOf, metadata_mark_qa_checked]

@[simp] theorem titleOf_applier_title (r : Record) (t : String) :
    titleOf (apply_title_correction r t) = some t :=
  AutoCorrectionProcessor.titleOf_apply_title_correction r t

@[simp] theorem creatorsOf_applier_title (r : Record) (t : String) :
    creatorsOf (apply_title_correction r t) = creatorsOf r :=
  AutoCorrectionProcessor.creatorsOf_apply_title_correction r t

@[simp] theorem titleOf_applier_aff (r : Record) (cs : List AffCorrection) :
    titleOf (apply_affiliation_corrections r cs).1 = titleOf r := by
  cases r with
  | mk md cf => cases md <;> rfl

@[simp] theorem titleOf_applier_org (r : Record) (cs : List OrgCorrection) :
    titleOf (apply_organizational_author_corrections r cs).1 = titleOf r := by
  cases r with
  | mk md cf => cases md <;> rfl

@[simp] theorem affiliationsOf_applier_org (r : Record) (cs : List OrgCorrection) :
    affiliationsOf (apply_organizational_author_corrections r cs).1 = affiliationsOf r := by
  cases r with
  | mk md cf =>
    cases md with
    | none => rfl
    | some m =>
      simp [apply_organizational_author_corrections, affiliationsOf, creatorsOf,
        List.map_map, Function.comp]

@[simp] theorem orgAuthorsOf_applier_aff (r : Record) (cs : List AffCorrection) :
    orgAuthorsOf (apply_affiliation_corrections r cs).1 = orgAuthorsOf r := by
  cases r with
  | mk md cf =>
    cases md with
    | none => rfl
    | some m =>
      simp [apply_affiliation_corrections, orgAuthorsOf, creatorsOf,
        List.map_map, Function.comp]

@[simp] theorem affiliationsOf_mark_qa_checked (r : Record) :
    affiliationsOf (mark_qa_checked r) = affiliationsOf r := by
  simp [affiliationsOf, creatorsOf_congr _ r (metadata_mark_qa_checked r)]

@[simp] theorem orgAuthorsOf_mark_qa_checked (r : Record) :
    orgAuthorsOf (mark_qa_checked r) = orgAuthorsOf r := by
  simp [orgAuthorsOf, creatorsOf_congr _ r (metadata_mark_qa_checked r)]

@[simp] theorem affiliationsOf_applier_title (r : Record) (t : String) :
    affiliationsOf (apply_title_correction r t) = affiliationsOf r := by
  simp [affiliationsOf]

@[simp] theorem orgAuthorsOf_applier_title (r : Record) (t : String) :
    orgAuthorsOf (apply_title_correction r t) = orgAuthorsOf r := by
  simp [orgAuthorsOf]

theorem qaCheckedOf_update_record_mutation (qa : QAReport) (d : Record) :
    qaCheckedOf (update_record_mutation qa d).1 = some true := by
  unfold update_record_mutation
  dsimp only
  exact qaCheckedOf_mark_qa_checked _

theorem titleOf_update_record_mutation_some (qa : QAReport) (d : Record) (t : String)
    (h : qa.corrections.title = some t) :
    titleOf (update_record_mutation qa d).1 = some t := by
  unfold update_record_mutation
  rw [h]
  dsimp only
  rw [titleOf_mark_qa_checked]
  split
  · split
    · simp
    · simp
  · split
    · simp
    · simp

theorem titleOf_update_record_mutation_none (qa : QAReport) (d : Record)
    (h : qa.corrections.title = none) :
    titleOf (update_record_mutation qa d).1 = titleOf d := by
  unfold update_record_mutation
  rw [h]
  dsimp only
  rw [titleOf_mark_qa_checked]
  split
  · split
    · simp
    · simp
  · split
    · simp
    · simp

theorem affiliationsOf_update_record_mutation (qa : QAReport) (d : Record)
    (h : qa.affiliation_corrections = []) :
    affiliationsOf (update_record_mutation qa d).1 = affiliationsOf d := by
  unfold update_record_mutation
  rw [h]
  dsimp only
  rw [affiliationsOf_mark_qa_checked]
  split
  · cases ht : qa.corrections.title <;> simp [ht]
  · cases ht : qa.corrections.title <;> simp [ht]

theorem orgAuthorsOf_update_record_mutation (qa : QAReport) (d : Record)
    (h : qa.organizational_author_corrections = []) :
    orgAuthorsOf (update_record_mutation qa d).1 = orgAuthorsOf d := by
  unfold update_record_mutation
  rw [h]
  dsimp only
  rw [orgAuthorsOf_mark_qa_checked]
  split
  · split
    · cases ht : qa.corrections.title <;> simp [ht]
    · cases ht : qa.corrections.title <;> simp [ht]
  · simp_all

end AutoCorrectionApplier

namespace QAEmailSender

/-- The scan step restricted to parseable files; a failed parse is skipped. -/
def cleanStep (s : AggState) (file : String × Option AggReport) : AggState :=
  match file.2 with
  | none => s
  | some d => goodStep file.1 d s

theorem eraseErrors_processFile (s : AggState) (f : String × Option AggReport) :
    eraseErrors (processFile s f) = cleanStep (eraseErrors s) f := by
  cases f with
  | mk name od =>
    cases od with
    | none => cases s; rfl
    | some d => cases s; rfl

theorem eraseErrors_foldl (files : List (String × Option AggReport)) (s : AggState) :
    eraseErrors (files.foldl processFile s) = files.foldl cleanStep (eraseErrors s) := by
  induction files generalizing s with
  | nil => rfl
  | cons f fs ih =>
    rw [List.foldl_cons, List.foldl_cons, ih, eraseErrors_processFile]

theorem errors_foldl (files : List (String × Option AggReport)) (s : AggState) :
    (files.foldl processFile s).errors =
      s.errors + (files.filter (fun f => f.2.isNone)).length := by
  induction files generalizing s with
  | nil => simp
  | cons f fs ih =>
    cases f with
    | mk name od =>
      cases od with
      | none =>
        rw [List.foldl_cons, ih]
        have h1 : (processFile s (name, none)).errors = s.errors + 1 := rfl
        rw [h1]
        simp [List.filter]
        omega
      | some d =>
        rw [List.foldl_cons, ih]
        have h1 : (processFile s (name, some d)).errors = s.errors := rfl
        rw [h1]
        simp [List.filter]

theorem error_list_length_foldl (files : List (String × Option AggReport)) (s : AggState) :
    (files.foldl processFile s).error_list.length =
      s.error_list.length + (files.filter (fun f => f.2.isNone)).length := by
  induction files generalizing s with
  | nil => simp
  | cons f fs ih =>
    cases f with
    | mk name od =>
      cases od with
      | none =>
        rw [List.foldl_cons, ih]
        have h1 : (processFile s (name, none)).error_list.length =
            s.error_list.length + 1 := by
          simp [processFile, addError]
        rw [h1]
        simp [List.filter]
        omega
      | some d =>
        rw [List.foldl_cons, ih]
        have h1 : (processFile s (name, some d)).error_list = s.error_list := rfl
        rw [h1]
        simp [List.filter]

theorem cleanFold_drop_bad (pre post : List (String × Option AggReport)) (name : String)
    (s : AggState) :
    (pre ++ (name, none) :: post).foldl cleanStep s = (pre ++ post).foldl cleanStep s := by
  rw [List.foldl_append, List.foldl_append, List.foldl_cons]
  rfl

end QAEmailSender

namespace INISQAChecker

theorem dtLt_true_of_year_lt (a b : DateTime) (h : a.year < b.year) : dtLt a b = true := by
  have hne : a.year ≠ b.year := Nat.ne_of_lt h
  simp [dtLt, hne, h]

theorem dtLt_yearStart_false (now : DateTime) (y : Nat) (hy : y ≤ now.year)
    (hm : 1 ≤ now.month) (hd : 1 ≤ now.day) : dtLt now ⟨y, 1, 1, 0, 0, 0⟩ = false := by
  unfold dtLt
  by_cases h1 : now.year = y
  · simp only [h1]
    simp
    by_cases h2 : now.month = 1
    · simp [h2]
      by_cases h3 : now.day = 1
      · simp [h3]
      · simp [h3]
        omega
    · simp [h2]
      omega
  · simp [h1]
    omega

theorem is_future_date_of_Ymd (s : String) (now : DateTime) (y m d : Nat)
    (h : strptime_Ymd s = some (y, m, d)) :
    is_future_date s now = dtLt now ⟨y, m, d, 0, 0, 0⟩ := by
  simp [is_future_date, h]

theorem is_future_date_of_Ym (s : String) (now : DateTime) (y m : Nat)
    (h1 : strptime_Ymd s = none) (h2 : strptime_Ym s = some (y, m)) :
    is_future_date s now = dtLt now ⟨y, m, 1, 0, 0, 0⟩ := by
  simp [is_future_date, h1, h2]

theorem is_future_date_unparseable (s : String) (now : DateTime)
    (h1 : strptime_Ymd s = none) (h2 : strptime_Ym s = none) :
    is_future_date s now = false := by
  simp [is_future_date, h1, h2]

end INISQAChecker

/-! ## Claim theorems -/

/-- A record with one creator affiliated to "A". -/
def c1CexRecord : Record :=
  ⟨some ⟨none, none, none, [⟨⟨"personal", "X"⟩, [⟨"A"⟩]⟩], none⟩, none⟩

/-- A record with one creator whose affiliation name is the empty string. -/
def c1CexRecordEmpty : Record :=
  ⟨some ⟨none, none, none, [⟨⟨"personal", "X"⟩, [⟨""⟩]⟩], none⟩, none⟩

/-- C1 counterexample.  The claim quantifies over every pair with a non-empty
recommended name and asserts (a) no affiliation named the old name remains
and (b) the applied count equals the number of entries that equaled the old
name before.  Three concrete refutations: the pair ("A","A") leaves an
affiliation named "A"; the pair ("","B") is skipped by the matcher, so the
entry named "" survives and counts 0 instead of 1; and with the pair list
[("A","B"), ("B","C")] the count is 2 although no entry equaled "B" before
application. -/
theorem C1_counterexample :
    ((creatorsOf (AutoCorrectionProcessor.apply_affiliation_corrections_core c1CexRecord
        [⟨"A", "A"⟩]).1).any (fun cr => cr.affiliations.any (fun a => a.name = "A"))) = true ∧
    (AutoCorrectionProcessor.apply_affiliation_corrections_core c1CexRecordEmpty
        [⟨"", "B"⟩]).2 = 0 ∧
    ((creatorsOf (AutoCorrectionProcessor.apply_affiliation_corrections_core c1CexRecordEmpty
        [⟨"", "B"⟩]).1).any (fun cr => cr.affiliations.any (fun a => a.name = ""))) = true ∧
    (AutoCorrectionProcessor.apply_affiliation_corrections_core c1CexRecord
        [⟨"A", "B"⟩, ⟨"B", "C"⟩]).2 = 2 ∧
    ((creatorsOf c1CexRecord).map
      (fun cr => (cr.affiliations.filter (fun a => a.name = "B")).length)).sum = 0 := by
  decide

/-- C1 (amended): for a correction list holding a single pair (old, new) with
old and new non-empty and new different from old, the processor matcher
overwrites every affiliation entry named old, so that none remains; its
internal applied count equals the number of entries that equaled old before
application; and it returns true iff at least one match occurred. -/
theorem C1_affiliation_single_pair :
    ∀ (record : Record) (old new : String),
      old ≠ "" → new ≠ "" → new ≠ old →
      ((∀ cr ∈ creatorsOf
          (AutoCorrectionProcessor.apply_affiliation_corrections_core record
            [⟨old, new⟩]).1, ∀ a ∈ cr.affiliations, a.name ≠ old) ∧
       (AutoCorrectionProcessor.apply_affiliation_corrections_core record
          [⟨old, new⟩]).2 =
         ((creatorsOf record).map
           (fun cr => (cr.affiliations.filter (fun a => a.name = old)).length)).sum ∧
       ((AutoCorrectionProcessor.apply_affiliation_corrections record [⟨old, new⟩]).2 = true ↔
         0 < ((creatorsOf record).map
           (fun cr => (cr.affiliations.filter (fun a => a.name = old)).length)).sum)) := by
  intro record old new h1 h2 h3
  have hguard : ¬(old = "" ∨ new = "") := by
    intro hc
    cases hc with
    | inl hc => exact h1 hc
    | inr hc => exact h2 hc
  have hcount : (AutoCorrectionProcessor.apply_affiliation_corrections_core record
      [⟨old, new⟩]).2 =
      ((creatorsOf record).map
        (fun cr => (cr.affiliations.filter (fun a => a.name = old)).length)).sum := by
    rw [AutoCorrectionProcessor.count_aff_core]
    simp only [AutoCorrectionProcessor.applyAffPairsFold, List.foldl_cons, List.foldl_nil,
      AutoCorrectionProcessor.affStepCount]
    rw [if_neg hguard]
    simp
  refine ⟨?_, hcount, ?_⟩
  · rw [AutoCorrectionProcessor.creatorsOf_aff_core]
    intro cr hcr a ha
    simp only [AutoCorrectionProcessor.applyAffPairsFold, List.foldl_cons, List.foldl_nil,
      AutoCorrectionProcessor.affStepCreators] at hcr
    rw [if_neg hguard] at hcr
    simp only [List.mem_map] at hcr
    obtain ⟨cr0, hcr0, rfl⟩ := hcr
    simp only [List.mem_map] at ha
    obtain ⟨a0, ha0, rfl⟩ := ha
    by_cases hn : a0.name = old
    · simp [hn]
      exact h3
    · simp [hn]
  · rw [show (AutoCorrectionProcessor.apply_affiliation_corrections record [⟨old, new⟩]).2 =
        decide (0 < (AutoCorrectionProcessor.apply_affiliation_corrections_core record
          [⟨old, new⟩]).2) from rfl]
    rw [hcount]
    simp

/-- C1 witness: the amended theorem applied at the record with affiliations
"A" and "C" and the pair ("A","B"). -/
theorem C1_affiliation_single_pair_witness :
    (∀ cr ∈ creatorsOf
        (AutoCorrectionProcessor.apply_affiliation_corrections_core
          ⟨some ⟨none, none, none, [⟨⟨"personal", "X"⟩, [⟨"A"⟩, ⟨"C"⟩]⟩], none⟩, none⟩
          [⟨"A", "B"⟩]).1, ∀ a ∈ cr.affiliations, a.name ≠ "A") ∧
    (AutoCorrectionProcessor.apply_affiliation_corrections_core
        ⟨some ⟨none, none, none, [⟨⟨"personal", "X"⟩, [⟨"A"⟩, ⟨"C"⟩]⟩], none⟩, none⟩
        [⟨"A", "B"⟩]).2 =
      ((creatorsOf (⟨some ⟨none, none, none, [⟨⟨"personal", "X"⟩, [⟨"A"⟩, ⟨"C"⟩]⟩], none⟩,
          none⟩ : Record)).map
        (fun cr => (cr.affiliations.filter (fun a => a.name = "A")).length)).sum ∧
    ((AutoCorrectionProcessor.apply_affiliation_corrections
        ⟨some ⟨none, none, none, [⟨⟨"personal", "X"⟩, [⟨"A"⟩, ⟨"C"⟩]⟩], none⟩, none⟩
        [⟨"A", "B"⟩]).2 = true ↔
      0 < ((creatorsOf (⟨some ⟨none, none, none, [⟨⟨"personal", "X"⟩, [⟨"A"⟩, ⟨"C"⟩]⟩], none⟩,
          none⟩ : Record)).map
        (fun cr => (cr.affiliations.filter (fun a => a.name = "A")).length)).sum) :=
  C1_affiliation_single_pair
    ⟨some ⟨none, none, none, [⟨⟨"personal", "X"⟩, [⟨"A"⟩, ⟨"C"⟩]⟩], none⟩, none⟩
    "A" "B" (by decide) (by decide) (by decide)

/-- A report with every boolean flag false whose corrections hold one
related identifier. -/
def c2QaRel : QAReport :=
  ⟨some "rid11-00001", false, false, false, false, false,
   ⟨none, none, none, none, some (.list [⟨"10.1/x"⟩])⟩, [], []⟩

/-- A record with an empty related-identifier list. -/
def c2RecRel : Record := ⟨some ⟨none, none, none, [], some []⟩, none⟩

/-- A report with every flag false and one affiliation-correction pair. -/
def c2QaAff : QAReport :=
  ⟨some "rid11-00001", false, false, false, false, false,
   ⟨none, none, none, none, none⟩, [⟨"A", "B"⟩], []⟩

/-- A record with one creator affiliated to "A". -/
def c2RecAff : Record :=
  ⟨some ⟨none, none, none, [⟨⟨"personal", "X"⟩, [⟨"A"⟩]⟩], none⟩, none⟩

/-- A report whose corrections hold a title but whose title flag is false. -/
def c2QaTitle : QAReport :=
  ⟨some "rid11-00001", false, false, false, false, false,
   ⟨some "New Title", none, none, none, none⟩, [], []⟩

/-- A draft with a different title. -/
def c2Draft : Record := ⟨some ⟨some "Old Title", none, none, [], none⟩, none⟩

/-- C2 counterexample.  The claim says a recognized kind mutates the record
only when its flag is true AND its key is present, with affiliation and
org-author corrections applied whenever their list is non-empty regardless
of a flag.  Refutations: the processor appends a related identifier (and
counts it) although every flag is false and no related-identifier flag even
exists; the processor leaves a record unchanged although the affiliation
list is non-empty, because the recommended flag is false; and the applier
overwrites the title although `title_corrected` is false. -/
theorem C2_counterexample :
    relIdsOf (AutoCorrectionProcessor.processCorrections c2QaRel c2RecRel).1 =
      some [⟨"10.1/x"⟩] ∧
    (AutoCorrectionProcessor.processCorrections c2QaRel c2RecRel).2 = 1 ∧
    (AutoCorrectionProcessor.processCorrections c2QaAff c2RecAff).1 = c2RecAff ∧
    titleOf (AutoCorrectionApplier.update_record_mutation c2QaTitle c2Draft).1 =
      some "New Title" := by
  decide

open AutoCorrectionProcessor AutoCorrectionApplier in
/-- C2 (amended): in the file-writing processor, title, abstract,
descriptor-deletion and publication-date corrections leave their field
unchanged unless the kind's flag is true AND its key is present; the
related-identifier list is unchanged when its key is absent (no flag is
consulted); and the creators are unchanged unless the affiliation flag is
true AND the pair list is non-empty.  In the live applier, the title is
overwritten whenever the title key is present regardless of any flag (and
preserved when absent), and affiliations and organizational authors are
unchanged when their correction lists are empty. -/
theorem C2_correction_gating :
    ∀ (qa : QAReport) (record d : Record),
      (¬(qa.title_corrected = true ∧ (qa.corrections.title).isSome = true) →
        titleOf (processCorrections qa record).1 = titleOf record) ∧
      (¬(qa.abstract_corrected = true ∧ (qa.corrections.abstract).isSome = true) →
        descriptionOf (processCorrections qa record).1 = descriptionOf record) ∧
      (¬(qa.descriptor_corrected = true ∧ (qa.corrections.delete_descriptor).isSome = true) →
        descriptorsOf (processCorrections qa record).1 = descriptorsOf record) ∧
      (¬(qa.date_corrected = true ∧ (qa.corrections.publication_date).isSome = true) →
        pubDateOf (processCorrections qa record).1 = pubDateOf record) ∧
      (qa.corrections.related_identifiers = none →
        relIdsOf (processCorrections qa record).1 = relIdsOf record) ∧
      (¬(qa.affiliation_correction_recommended = true ∧ qa.affiliation_corrections ≠ []) →
        creatorsOf (processCorrections qa record).1 = creatorsOf record) ∧
      (∀ t, qa.corrections.title = some t →
        titleOf (update_record_mutation qa d).1 = some t) ∧
      (qa.corrections.title = none →
        titleOf (update_record_mutation qa d).1 = titleOf d) ∧
      (qa.affiliation_corrections = [] →
        affiliationsOf (update_record_mutation qa d).1 = affiliationsOf d) ∧
      (qa.organizational_author_corrections = [] →
        orgAuthorsOf (update_record_mutation qa d).1 = orgAuthorsOf d) := by
  intro qa record d
  refine ⟨?_, ?_, ?_, ?_, ?_, ?_, ?_, ?_, ?_, ?_⟩
  · intro h
    simp only [processCorrections, titleOf_stepRelated, titleOf_stepDate,
      titleOf_stepDescriptor, titleOf_stepAffiliation, titleOf_stepAbstract]
    rw [stepTitle_skip qa (record, 0) h]
  · intro h
    simp only [processCorrections, descriptionOf_stepRelated, descriptionOf_stepDate,
      descriptionOf_stepDescriptor, descriptionOf_stepAffiliation]
    rw [stepAbstract_skip qa (stepTitle qa (record, 0)) h]
    simp only [descriptionOf_stepTitle]
  · intro h
    simp only [processCorrections, descriptorsOf_stepRelated, descriptorsOf_stepDate]
    rw [stepDescriptor_skip qa (stepAffiliation qa (stepAbstract qa (stepTitle qa
      (record, 0)))) h]
    simp only [descriptorsOf_stepAffiliation, descriptorsOf_stepAbstract,
      descriptorsOf_stepTitle]
  · intro h
    simp only [processCorrections, pubDateOf_stepRelated]
    rw [stepDate_skip qa (stepDescriptor qa (stepAffiliation qa (stepAbstract qa
      (stepTitle qa (record, 0))))) h]
    simp only [pubDateOf_stepDescriptor, pubDateOf_stepAffiliation,
      pubDateOf_stepAbstract, pubDateOf_stepTitle]
  · intro h
    simp only [processCorrections]
    rw [stepRelated_skip qa (stepDate qa (stepDescriptor qa (stepAffiliation qa
      (stepAbstract qa (stepTitle qa (record, 0)))))) h]
    simp only [relIdsOf_stepDate, relIdsOf_stepDescriptor, relIdsOf_stepAffiliation,
      relIdsOf_stepAbstract, relIdsOf_stepTitle]
  · intro h
    simp only [processCorrections, creatorsOf_stepRelated, creatorsOf_stepDate,
      creatorsOf_stepDescriptor]
    rw [stepAffiliation_skip qa (stepAbstract qa (stepTitle qa (record, 0))) h]
    simp only [creatorsOf_stepAbstract, creatorsOf_stepTitle]
  · exact fun t ht => titleOf_update_record_mutation_some qa d t ht
  · exact fun h => titleOf_update_record_mutation_none qa d h
  · exact fun h => affiliationsOf_update_record_mutation qa d h
  · exact fun h => orgAuthorsOf_update_record_mutation qa d h

/-- A report with every flag false and no correction keys. -/
def c2WitQa : QAReport :=
  ⟨some "w1234-00001", false, false, false, false, false,
   ⟨none, none, none, none, none⟩, [], []⟩

/-- A report whose only correction key is a title. -/
def c2WitQaTitle : QAReport :=
  ⟨some "w1234-00001", false, false, false, false, false,
   ⟨some "T2", none, none, none, none⟩, [], []⟩

/-- A populated record. -/
def c2WitRec : Record :=
  ⟨some ⟨some "t0", some "d0", some "2020-01-01",
    [⟨⟨"personal", "X"⟩, [⟨"A"⟩]⟩], some []⟩, some ⟨none, some ["K"], none⟩⟩

/-- C2 witness: the amended theorem applied at concrete reports and records,
with each hypothesis discharged by evaluation. -/
theorem C2_correction_gating_witness :
    titleOf (AutoCorrectionProcessor.processCorrections c2WitQa c2WitRec).1 =
      titleOf c2WitRec ∧
    descriptionOf (AutoCorrectionProcessor.processCorrections c2WitQa c2WitRec).1 =
      descriptionOf c2WitRec ∧
    descriptorsOf (AutoCorrectionProcessor.processCorrections c2WitQa c2WitRec).1 =
      descriptorsOf c2WitRec ∧
    pubDateOf (AutoCorrectionProcessor.processCorrections c2WitQa c2WitRec).1 =
      pubDateOf c2WitRec ∧
    relIdsOf (AutoCorrectionProcessor.processCorrections c2WitQa c2WitRec).1 =
      relIdsOf c2WitRec ∧
    creatorsOf (AutoCorrectionProcessor.processCorrections c2WitQa c2WitRec).1 =
      creatorsOf c2WitRec ∧
    titleOf (AutoCorrectionApplier.update_record_mutation c2WitQaTitle c2WitRec).1 =
      some "T2" ∧
    titleOf (AutoCorrectionApplier.update_record_mutation c2WitQa c2WitRec).1 =
      titleOf c2WitRec ∧
    affiliationsOf (AutoCorrectionApplier.update_record_mutation c2WitQa c2WitRec).1 =
      affiliationsOf c2WitRec ∧
    orgAuthorsOf (AutoCorrectionApplier.update_record_mutation c2WitQa c2WitRec).1 =
      orgAuthorsOf c2WitRec := by
  have h1 := C2_correction_gating c2WitQa c2WitRec c2WitRec
  have h2 := C2_correction_gating c2WitQaTitle c2WitRec c2WitRec
  exact ⟨h1.1 (by decide), h1.2.1 (by decide), h1.2.2.1 (by decide),
    h1.2.2.2.1 (by decide), h1.2.2.2.2.1 (by decide), h1.2.2.2.2.2.1 (by decide),
    h2.2.2.2.2.2.2.1 "T2" (by decide), h1.2.2.2.2.2.2.2.1 (by decide),
    h1.2.2.2.2.2.2.2.2.1 (by decide), h1.2.2.2.2.2.2.2.2.2 (by decide)⟩

/-- A report carrying only a title correction. -/
def c3Qa : QAReport :=
  ⟨some "rid11-00001", true, false, false, false, false,
   ⟨some "New", none, none, none, none⟩, [], []⟩

/-- A record without custom fields. -/
def c3Rec : Record := ⟨some ⟨some "Old", none, none, [], none⟩, none⟩

/-- C3 counterexample: the file-writing corrector processes a report to
completion (a corrected snapshot is produced), yet the corrected record has
no `iaea:qa_checked` value at all — only the live applier sets the
marker. -/
theorem C3_counterexample :
    (AutoCorrectionProcessor.process_qa_report c3Qa (some c3Rec)).map
      (fun out => qaCheckedOf out.corrected_record) = some none := by
  decide

/-- C3 (amended): the live applier sets `custom_fields.iaea:qa_checked = true`
on every draft it prepares — both in `update_record`, whatever the report
contents, and in the qa-checked-only path — while the file-writing
corrector never sets the marker on its snapshots. -/
theorem C3_qa_checked_marking :
    ∀ (qa : QAReport) (d r : Record),
      qaCheckedOf (AutoCorrectionApplier.update_record_mutation qa d).1 = some true ∧
      qaCheckedOf (AutoCorrectionApplier.mark_qa_checked r) = some true := by
  intro qa d r
  exact ⟨AutoCorrectionApplier.qaCheckedOf_update_record_mutation qa d,
    AutoCorrectionApplier.qaCheckedOf_mark_qa_checked r⟩

/-- A report with the affiliation flag set and one pair matching three
affiliation entries. -/
def c4QaAff : QAReport :=
  ⟨some "rid11-00001", false, false, false, false, true,
   ⟨none, none, none, none, none⟩, [⟨"A", "B"⟩], []⟩

/-- A record with three affiliation entries named "A". -/
def c4RecAff : Record :=
  ⟨some ⟨none, none, none,
    [⟨⟨"personal", "X"⟩, [⟨"A"⟩, ⟨"A"⟩]⟩, ⟨⟨"personal", "Y"⟩, [⟨"A"⟩]⟩], none⟩, none⟩

/-- A report whose corrections hold two distinct related identifiers. -/
def c4QaRel : QAReport :=
  ⟨some "rid11-00001", false, false, false, false, false,
   ⟨none, none, none, none, some (.list [⟨"10.1/x"⟩, ⟨"10.1/y"⟩])⟩, [], []⟩

/-- A record with an empty related-identifier list. -/
def c4RecRel : Record := ⟨some ⟨none, none, none, [], some []⟩, none⟩

/-- C4 counterexample.  The claim says affiliation corrections count matched
occurrences and every other kind counts once.  Refutations: a pair matching
three affiliation entries contributes 1 (not 3) to `corrections_applied`;
and two appended related identifiers contribute 2 although they are a
single correction kind. -/
theorem C4_counterexample :
    (AutoCorrectionProcessor.processCorrections c4QaAff c4RecAff).2 = 1 ∧
    (AutoCorrectionProcessor.apply_affiliation_corrections_core c4RecAff
      [⟨"A", "B"⟩]).2 = 3 ∧
    (AutoCorrectionProcessor.processCorrections c4QaRel c4RecRel).2 = 2 := by
  decide

open AutoCorrectionProcessor in
/-- C4 (amended): the corrections-applied count of a processed report equals
one per fired kind among title, abstract, affiliation, descriptor-deletion
and publication-date — affiliation contributing at most one no matter how
many entries matched — plus one per related identifier actually appended. -/
theorem C4_count_decomposition :
    ∀ (qa : QAReport) (record : Record),
      (processCorrections qa record).2 =
        (if qa.title_corrected = true ∧ (qa.corrections.title).isSome = true
          then 1 else 0) +
        (if qa.abstract_corrected = true ∧ (qa.corrections.abstract).isSome = true
          then 1 else 0) +
        (if qa.affiliation_correction_recommended = true ∧ qa.affiliation_corrections ≠ [] ∧
            0 < (applyAffPairsFold (creatorsOf record) qa.affiliation_corrections).2
          then 1 else 0) +
        (if qa.descriptor_corrected = true ∧
            descriptorDeletionFires record qa.corrections.delete_descriptor = true
          then 1 else 0) +
        (if qa.date_corrected = true ∧ (qa.corrections.publication_date).isSome = true
          then 1 else 0) +
        relAppendedCount (recordAfterKinds qa record) (relListOf qa) := by
  intro qa record
  have hcr : creatorsOf (stepAbstract qa (stepTitle qa (record, 0))).1 =
      creatorsOf record := by simp
  have hds : descriptorsOf (stepAffiliation qa (stepAbstract qa (stepTitle qa
      (record, 0)))).1 = descriptorsOf record := by simp
  show (stepRelated qa (stepDate qa (stepDescriptor qa (stepAffiliation qa
    (stepAbstract qa (stepTitle qa (record, 0))))))).2 = _
  rw [count_stepRelated, count_stepDate, count_stepDescriptor, count_stepAffiliation,
    count_stepAbstract, count_stepTitle, hcr,
    descriptorDeletionFires_congr _ record _ hds]
  simp only [recordAfterKinds]
  omega

theorem filter_filter_self {α : Type} (p : α → Bool) (l : List α) :
    (l.filter p).filter p = l.filter p := by
  induction l with
  | nil => rfl
  | cons x xs ih =>
    by_cases hx : p x = true
    · simp [List.filter_cons, hx, ih]
    · simp [List.filter_cons, hx, ih]

open AutoCorrectionProcessor in
/-- C5: descriptor deletion keeps exactly the entries whose lowercase form is
not in the lowercased deletion list, returns true iff the list shrank, and
is idempotent — re-running the same deletion list on the result changes
nothing and reports false.  The concrete example of the claim: deleting
"Reactor" from ["REACTOR", "Fuel"] leaves ["Fuel"]. -/
theorem C5_descriptor_deletion :
    ∀ (record : Record) (deletions : List String),
      (descriptorsOf (apply_descriptor_deletions record deletions).1).getD [] =
        ((descriptorsOf record).getD []).filter
          (fun d => !((deletions.map strLower).contains (strLower d))) ∧
      (apply_descriptor_deletions record deletions).2 =
        decide ((((descriptorsOf record).getD []).filter
            (fun d => !((deletions.map strLower).contains (strLower d)))).length <
          ((descriptorsOf record).getD []).length) ∧
      apply_descriptor_deletions (apply_descriptor_deletions record deletions).1 deletions =
        ((apply_descriptor_deletions record deletions).1, false) ∧
      descriptorsOf (apply_descriptor_deletions
        (⟨none, some ⟨none, some ["REACTOR", "Fuel"], none⟩⟩ : Record) ["Reactor"]).1 =
        some ["Fuel"] := by
  intro record deletions
  obtain ⟨md, cf⟩ := record
  have hmain : ∀ (qac : Option Bool) (lead : Option String) (x : String) (xs : List String),
      apply_descriptor_deletions (⟨md, some ⟨qac, some (x :: xs), lead⟩⟩ : Record) deletions =
        (⟨md, some ⟨qac, some ((x :: xs).filter (fun d =>
            !((deletions.map strLower).contains (strLower d)))), lead⟩⟩,
         decide (((x :: xs).filter (fun d =>
            !((deletions.map strLower).contains (strLower d)))).length <
           (x :: xs).length)) := by
    intro qac lead x xs
    simp [apply_descriptor_deletions, descriptorsOf, setDescriptors]
  refine ⟨?_, ?_, ?_, by decide⟩
  · cases cf with
    | none => simp [apply_descriptor_deletions, descriptorsOf]
    | some cfv =>
      obtain ⟨qac, dsc, lead⟩ := cfv
      cases dsc with
      | none => simp [apply_descriptor_deletions, descriptorsOf]
      | some l =>
        cases l with
        | nil => simp [apply_descriptor_deletions, descriptorsOf]
        | cons x xs =>
          rw [hmain]
          simp [descriptorsOf]
  · cases cf with
    | none => simp [apply_descriptor_deletions, descriptorsOf]
    | some cfv =>
      obtain ⟨qac, dsc, lead⟩ := cfv
      cases dsc with
      | none => simp [apply_descriptor_deletions, descriptorsOf]
      | some l =>
        cases l with
        | nil => simp [apply_descriptor_deletions, descriptorsOf]
        | cons x xs =>
          rw [hmain]
          simp [descriptorsOf]
  · cases cf with
    | none => simp [apply_descriptor_deletions, descriptorsOf]
    | some cfv =>
      obtain ⟨qac, dsc, lead⟩ := cfv
      cases dsc with
      | none => simp [apply_descriptor_deletions, descriptorsOf]
      | some l =>
        cases l with
        | nil => simp [apply_descriptor_deletions, descriptorsOf]
        | cons x xs =>
          rw [hmain]
          cases hR : (x :: xs).filter (fun d =>
              !((deletions.map strLower).contains (strLower d))) with
          | nil => simp [apply_descriptor_deletions, descriptorsOf]
          | cons y ys =>
            have hff : (y :: ys).filter (fun d =>
                !((deletions.map strLower).contains (strLower d))) = y :: ys := by
              rw [← hR, filter_filter_self, hR]
            rw [hmain, hff]
            simp

/-- A record with a metadata section and an empty related-identifier list. -/
def c6RecEmpty : Record := ⟨some ⟨none, none, none, [], some []⟩, none⟩

/-- A record without a metadata section. -/
def c6RecNoMeta : Record := ⟨none, none⟩

/-- C6 counterexample.  The claim says an identifier object is appended
unless an entry with the same identifier string already exists, and that
the per-object addition returns true iff it appended.  Refutations: an
object with an empty identifier is never appended (and reports false) even
though no entry with identifier "" exists; and on a record without a
metadata section the call reports true while appending nothing (the fresh
dict produced by `record.get("metadata", {})` is discarded). -/
theorem C6_counterexample :
    AutoCorrectionProcessor.add_related_identifier c6RecEmpty ⟨""⟩ =
      (c6RecEmpty, false) ∧
    AutoCorrectionProcessor.add_related_identifier c6RecNoMeta ⟨"10.1/x"⟩ =
      (c6RecNoMeta, true) := by
  decide

open AutoCorrectionProcessor in
/-- C6 (amended): on a record whose metadata section is present, an
identifier object with a non-empty identifier is appended to
`metadata.related_identifiers` exactly when no entry with the same
identifier string exists, the call returns true iff it appended, and
adding the same object a second time changes nothing and reports false;
when a duplicate already exists the record keeps its identifier list and
the call reports false. -/
theorem C6_related_identifier_dedup :
    ∀ (r : Record) (m : Metadata) (d : RelatedIdentifier),
      r.metadata = some m → d.identifier ≠ "" →
      ((d.identifier ∉ (m.related_identifiers.getD []).map (fun ri => ri.identifier) →
          relIdsOf (add_related_identifier r d).1 =
            some ((m.related_identifiers.getD []) ++ [d]) ∧
          (add_related_identifier r d).2 = true ∧
          add_related_identifier (add_related_identifier r d).1 d =
            ((add_related_identifier r d).1, false)) ∧
       (d.identifier ∈ (m.related_identifiers.getD []).map (fun ri => ri.identifier) →
          (add_related_identifier r d).2 = false ∧
          relIdsOf (add_related_identifier r d).1 =
            some (m.related_identifiers.getD []))) := by
  intro r m d hm hne
  obtain ⟨md, cf⟩ := r
  have hmd : md = some m := hm
  subst hmd
  constructor
  · intro hni
    have hcond : d.identifier ≠ "" ∧
        d.identifier ∉ (m.related_identifiers.getD []).map (fun ri => ri.identifier) :=
      ⟨hne, hni⟩
    simp only [add_related_identifier]
    rw [if_pos hcond]
    refine ⟨rfl, rfl, ?_⟩
    have hmem2 : d.identifier ∈
        ((m.related_identifiers.getD []) ++ [d]).map (fun ri => ri.identifier) := by
      simp
    simp only [add_related_identifier]
    rw [if_neg (fun hc => hc.2 hmem2)]
    exact rfl
  · intro hmem
    have hcond : ¬(d.identifier ≠ "" ∧
        d.identifier ∉ (m.related_identifiers.getD []).map (fun ri => ri.identifier)) :=
      fun hc => hc.2 hmem
    simp only [add_related_identifier]
    rw [if_neg hcond]
    exact ⟨rfl, rfl⟩

/-- C6 witness: the amended theorem applied at a record with an empty
related-identifier list and the identifier "10.1/x". -/
theorem C6_related_identifier_dedup_witness :
    relIdsOf (AutoCorrectionProcessor.add_related_identifier c6RecEmpty ⟨"10.1/x"⟩).1 =
      some [⟨"10.1/x"⟩] ∧
    (AutoCorrectionProcessor.add_related_identifier c6RecEmpty ⟨"10.1/x"⟩).2 = true ∧
    AutoCorrectionProcessor.add_related_identifier
        (AutoCorrectionProcessor.add_related_identifier c6RecEmpty ⟨"10.1/x"⟩).1
        ⟨"10.1/x"⟩ =
      ((AutoCorrectionProcessor.add_related_identifier c6RecEmpty ⟨"10.1/x"⟩).1,
        false) := by
  have h := (C6_related_identifier_dedup c6RecEmpty ⟨none, none, none, [], some []⟩
    ⟨"10.1/x"⟩ rfl (by decide)).1 (by decide)
  exact ⟨by simpa using h.1, h.2.1, h.2.2⟩

open INISQAChecker in
/-- C7: the future-date check parses the publication date as YYYY-MM-DD,
falls back to YYYY-MM, flags exactly the dates strictly after the current
moment, and treats anything neither format parses as not future.  For any
present moment between the start of 2020 and the end of 2998: "2999-01-15"
and "2999-01" are flagged, "2020-01" and "not-a-date" are not; an
unparseable string is never flagged; a YYYY-MM-DD-parsed string is flagged
iff its midnight is after the current moment; and a string the fallback
parses as YYYY-MM is flagged iff midnight of the first of that month is
after the current moment. -/
theorem C7_future_date :
    ∀ (now : INISQAChecker.DateTime),
      2020 ≤ now.year → now.year ≤ 2998 → 1 ≤ now.month → 1 ≤ now.day →
      (is_future_date "2999-01-15" now = true ∧
       is_future_date "2999-01" now = true ∧
       is_future_date "2020-01" now = false ∧
       is_future_date "not-a-date" now = false ∧
       (∀ s, strptime_Ymd s = none → strptime_Ym s = none →
          is_future_date s now = false) ∧
       (∀ s y m d, strptime_Ymd s = some (y, m, d) →
          (is_future_date s now = true ↔ dtLt now ⟨y, m, d, 0, 0, 0⟩ = true)) ∧
       (∀ s y m, strptime_Ymd s = none → strptime_Ym s = some (y, m) →
          (is_future_date s now = true ↔ dtLt now ⟨y, m, 1, 0, 0, 0⟩ = true))) := by
  intro now h1 h2 h3 h4
  have p1 : strptime_Ymd "2999-01-15" = some (2999, 1, 15) := by decide
  have p2 : strptime_Ymd "2999-01" = none := by decide
  have p3 : strptime_Ym "2999-01" = some (2999, 1) := by decide
  have p4 : strptime_Ymd "2020-01" = none := by decide
  have p5 : strptime_Ym "2020-01" = some (2020, 1) := by decide
  have p6 : strptime_Ymd "not-a-date" = none := by decide
  have p7 : strptime_Ym "not-a-date" = none := by decide
  refine ⟨?_, ?_, ?_, ?_, ?_, ?_, ?_⟩
  · rw [is_future_date_of_Ymd "2999-01-15" now 2999 1 15 p1]
    exact dtLt_true_of_year_lt now ⟨2999, 1, 15, 0, 0, 0⟩ (by show now.year < 2999; omega)
  · rw [is_future_date_of_Ym "2999-01" now 2999 1 p2 p3]
    exact dtLt_true_of_year_lt now ⟨2999, 1, 1, 0, 0, 0⟩ (by show now.year < 2999; omega)
  · rw [is_future_date_of_Ym "2020-01" now 2020 1 p4 p5]
    exact dtLt_yearStart_false now 2020 h1 h3 h4
  · exact is_future_date_unparseable "not-a-date" now p6 p7
  · exact fun s hs1 hs2 => is_future_date_unparseable s now hs1 hs2
  · intro s y m d hp
    rw [is_future_date_of_Ymd s now y m d hp]
  · intro s y m hp1 hp2
    rw [is_future_date_of_Ym s now y m hp1 hp2]

/-- C7 witness: the theorem applied at the concrete moment
2026-10-12 09:30:00.  The last two conjuncts exercise the fallback iff: at
that moment "2026-12" (same year, later month) is flagged future and
"2026-09" is not, so the fallback comparison is sensitive to the month,
not just the year. -/
theorem C7_future_date_witness :
    INISQAChecker.is_future_date "2999-01-15" ⟨2026, 10, 12, 9, 30, 0⟩ = true ∧
    INISQAChecker.is_future_date "2999-01" ⟨2026, 10, 12, 9, 30, 0⟩ = true ∧
    INISQAChecker.is_future_date "2020-01" ⟨2026, 10, 12, 9, 30, 0⟩ = false ∧
    INISQAChecker.is_future_date "not-a-date" ⟨2026, 10, 12, 9, 30, 0⟩ = false ∧
    INISQAChecker.is_future_date "2026-12" ⟨2026, 10, 12, 9, 30, 0⟩ = true ∧
    INISQAChecker.is_future_date "2026-09" ⟨2026, 10, 12, 9, 30, 0⟩ = false := by
  have h := C7_future_date ⟨2026, 10, 12, 9, 30, 0⟩
    (by decide) (by decide) (by decide) (by decide)
  refine ⟨h.1, h.2.1, h.2.2.1, h.2.2.2.1, ?_, ?_⟩
  · exact (h.2.2.2.2.2.2 "2026-12" 2026 12 (by decide) (by decide)).mpr (by decide)
  · have hiff := h.2.2.2.2.2.2 "2026-09" 2026 9 (by decide) (by decide)
    cases hfd : INISQAChecker.is_future_date "2026-09" ⟨2026, 10, 12, 9, 30, 0⟩ with
    | false => rfl
    | true => exact absurd (hiff.mp hfd) (by decide)

/-- A report carrying a title correction. -/
def c8Qa : QAReport :=
  ⟨some "abc11-22222", false, false, false, false, false,
   ⟨some "T", none, none, none, none⟩, [], []⟩

/-- A fetched draft. -/
def c8Draft : Record := ⟨some ⟨some "Old", none, none, [], none⟩, none⟩

/-- C8 counterexample: with the dry-run flag set, both applier paths still
send the draft-creation POST — a mutating request — to the live repository
before the dry-run check is ever consulted. -/
theorem C8_counterexample :
    AutoCorrectionApplier.ApiRequest.postDraft "abc11-22222" ∈
      AutoCorrectionApplier.update_record_requests true "abc11-22222" c8Qa true
        (some c8Draft) ∧
    (AutoCorrectionApplier.ApiRequest.postDraft "abc11-22222").isMutating = true ∧
    AutoCorrectionApplier.ApiRequest.postDraft "abc11-22222" ∈
      AutoCorrectionApplier.mark_record_as_qa_checked_only_requests true "abc11-22222"
        true (some c8Draft) := by
  decide

open AutoCorrectionApplier in
/-- C8 (amended): in dry-run mode the applier sends no draft update (PUT) and
no publish action — its trace is exactly the draft-creation POST followed,
when the draft reply carried an id, by the read-only draft GET; the
draft-creation POST is therefore the only mutating request still
issued. -/
theorem C8_dry_run_no_update_or_publish :
    ∀ (rid : String) (qa : QAReport) (hasId : Bool) (fd : Option Record),
      update_record_requests true rid qa hasId fd =
        ApiRequest.postDraft rid :: (if hasId then [ApiRequest.getDraft rid] else []) ∧
      mark_record_as_qa_checked_only_requests true rid hasId fd =
        ApiRequest.postDraft rid :: (if hasId then [ApiRequest.getDraft rid] else []) ∧
      (∀ req ∈ update_record_requests true rid qa hasId fd,
        req.isMutating = true → req = ApiRequest.postDraft rid) ∧
      (∀ req ∈ mark_record_as_qa_checked_only_requests true rid hasId fd,
        req.isMutating = true → req = ApiRequest.postDraft rid) := by
  intro rid qa hasId fd
  have e1 : update_record_requests true rid qa hasId fd =
      ApiRequest.postDraft rid :: (if hasId then [ApiRequest.getDraft rid] else []) := by
    cases hasId with
    | false => simp [update_record_requests]
    | true => cases fd <;> simp [update_record_requests]
  have e2 : mark_record_as_qa_checked_only_requests true rid hasId fd =
      ApiRequest.postDraft rid :: (if hasId then [ApiRequest.getDraft rid] else []) := by
    cases hasId with
    | false => simp [mark_record_as_qa_checked_only_requests]
    | true => cases fd <;> simp [mark_record_as_qa_checked_only_requests]
  have hmem : ∀ req ∈ ApiRequest.postDraft rid ::
      (if hasId then [ApiRequest.getDraft rid] else []),
      req.isMutating = true → req = ApiRequest.postDraft rid := by
    intro req hreq hmut
    cases hasId with
    | false =>
      simp at hreq
      subst hreq
      rfl
    | true =>
      simp at hreq
      cases hreq with
      | inl h => subst h; rfl
      | inr h =>
        subst h
        simp [ApiRequest.isMutating] at hmut
  exact ⟨e1, e2, by rw [e1]; exact hmem, by rw [e2]; exact hmem⟩

/-- C8 witness: the amended theorem applied at a concrete dry-run call whose
draft reply carried an id. -/
theorem C8_dry_run_no_update_or_publish_witness :
    AutoCorrectionApplier.update_record_requests true "abc11-22222" c8Qa true
        (some c8Draft) =
      [AutoCorrectionApplier.ApiRequest.postDraft "abc11-22222",
       AutoCorrectionApplier.ApiRequest.getDraft "abc11-22222"] ∧
    AutoCorrectionApplier.mark_record_as_qa_checked_only_requests true "abc11-22222"
        true (some c8Draft) =
      [AutoCorrectionApplier.ApiRequest.postDraft "abc11-22222",
       AutoCorrectionApplier.ApiRequest.getDraft "abc11-22222"] := by
  have h := C8_dry_run_no_update_or_publish "abc11-22222" c8Qa true (some c8Draft)
  exact ⟨by simpa using h.1, by simpa using h.2.1⟩

open QAEmailSender in
/-- C9: a report file that fails to parse as JSON adds one to the error
counter and one message to the error list, while every other counter and
aggregate of the summary is exactly what the scan of the remaining files
produces — the failure neither contributes elsewhere nor stops the
scan. -/
theorem C9_malformed_report_isolated :
    ∀ (pre post : List (String × Option AggReport)) (name : String),
      eraseErrors (create_summary_report (pre ++ (name, none) :: post)) =
        eraseErrors (create_summary_report (pre ++ post)) ∧
      (create_summary_report (pre ++ (name, none) :: post)).errors =
        (create_summary_report (pre ++ post)).errors + 1 ∧
      (create_summary_report (pre ++ (name, none) :: post)).error_list.length =
        (create_summary_report (pre ++ post)).error_list.length + 1 := by
  intro pre post name
  refine ⟨?_, ?_, ?_⟩
  · rw [create_summary_report, create_summary_report, eraseErrors_foldl, eraseErrors_foldl,
      cleanFold_drop_bad]
  · rw [create_summary_report, create_summary_report, errors_foldl, errors_foldl]
    simp [List.filter_append, List.filter]
    omega
  · rw [create_summary_report, create_summary_report, error_list_length_foldl,
      error_list_length_foldl]
    simp [List.filter_append, List.filter]
    omega

open AutoCorrectionProcessor in
/-- C10: the file-writing corrector computes the corrected record as a pure
function of the fetched record (the deep copy), and the snapshot it writes
stores the fetched record itself, unmutated, as `original_record`, next to
the corrected copy and the applied count. -/
theorem C10_original_record_preserved :
    ∀ (qa : QAReport) (record : Record) (out : CorrectedData),
      process_qa_report qa (some record) = some out →
      out.original_record = record ∧
      out.corrected_record = (processCorrections qa record).1 ∧
      out.corrections_applied = (processCorrections qa record).2 := by
  intro qa record out h
  unfold process_qa_report at h
  cases hrid : qa.record_id with
  | none =>
    rw [hrid] at h
    exact absurd h (by simp)
  | some rid =>
    rw [hrid] at h
    dsimp only at h
    by_cases he : rid = ""
    · rw [if_pos he] at h
      exact absurd h (by simp)
    · rw [if_neg he] at h
      by_cases hc : 0 < (processCorrections qa record).2
      · rw [if_pos hc] at h
        have hout := Option.some.inj h
        subst hout
        exact ⟨rfl, rfl, rfl⟩
      · rw [if_neg hc] at h
        exact absurd h (by simp)

/-- A report carrying a title correction. -/
def c10Qa : QAReport :=
  ⟨some "abcde-12345", true, false, false, false, false,
   ⟨some "New Title", none, none, none, none⟩, [], []⟩

/-- A fetched record with the old title. -/
def c10Rec : Record := ⟨some ⟨some "Old Title", none, none, [], none⟩, none⟩

/-- C10 witness: the theorem applied at a concrete report and record whose
processing produces a snapshot. -/
theorem C10_original_record_preserved_witness :
    (⟨⟨some ⟨some "New Title", none, none, [], none⟩, none⟩, 1, c10Rec⟩ :
      AutoCorrectionProcessor.CorrectedData).original_record = c10Rec ∧
    (⟨⟨some ⟨some "New Title", none, none, [], none⟩, none⟩, 1, c10Rec⟩ :
      AutoCorrectionProcessor.CorrectedData).corrected_record =
        (AutoCorrectionProcessor.processCorrections c10Qa c10Rec).1 ∧
    (⟨⟨some ⟨some "New Title", none, none, [], none⟩, none⟩, 1, c10Rec⟩ :
      AutoCorrectionProcessor.CorrectedData).corrections_applied =
        (AutoCorrectionProcessor.processCorrections c10Qa c10Rec).2 :=
  C10_original_record_preserved c10Qa c10Rec
    ⟨⟨some ⟨some "New Title", none, none, [], none⟩, none⟩, 1, c10Rec⟩ (by decide)
